import Mathlib

/-!
Verification of the measurement-to-verdict pipeline of Django-Mercury
(django_mercury/n_plus_one.py, config.py, monitor.py) against its
natural-language specification.

The Python code is shallowly embedded: pure functions become Lean
functions on `List Char` / `String` / `ℚ` / `Nat`; the four `re.sub`
passes of `normalize_query` are embedded as left-to-right scanners with
exactly the matching semantics of the original patterns (leftmost match,
greedy quantifiers, scan resumes after each replacement).  Scanners that
consume more than one character per step are written with an explicit
fuel argument (fuel = length of the list, each step consumes at least
one character) so that every definition is a computable structural
recursion; fuel-irrelevance lemmas below recover the natural unfolding
equations.

Character classes are the ASCII fragment of Python's `\w`, `\d`, `\s`
(SQL text in this codebase is ASCII; Python's str patterns are
Unicode-aware, which is immaterial for every claim below).
-/

set_option maxHeartbeats 1000000
set_option maxRecDepth 10000

namespace DjangoMercury

/-! ### Character classes -/

/-- The single-quote character `'` (written via its code point). -/
def squote : Char := Char.ofNat 39

/-- `[0-9a-f]` with `re.IGNORECASE`, i.e. any hex digit. -/
def hexOk (c : Char) : Bool := c.isDigit || ('a' ≤ c && c ≤ 'f') || ('A' ≤ c && c ≤ 'F')

/-- ASCII `\w`: letters, digits, underscore. -/
def isWordChar (c : Char) : Bool := c.isAlpha || c.isDigit || c = '_'

/-- ASCII `\s`: space, tab, newline, carriage return, vertical tab, form feed. -/
def isSpaceChar (c : Char) : Bool :=
  c = ' ' || c = '\t' || c = '\n' || c = '\r' || c = '\x0b' || c = '\x0c'

def isInChar (c : Char) : Bool := c = 'I' || c = 'i'

def isNChar (c : Char) : Bool := c = 'N' || c = 'n'

/-- `\b` just after a digit run: true iff the next character is absent or not a
word character. -/
def boundaryAfter : List Char → Bool
  | [] => true
  | c :: _ => !(isWordChar c)

/-! ### Pass 1: UUID literals  (`re.sub(r"'[0-9a-f]{8}-....'", "'?'", s, IGNORECASE)`) -/

/-- A list of per-position character tests. -/
def checkShape : List (Char → Bool) → List Char → Bool
  | [], _ => true
  | _ :: _, [] => false
  | p :: ps, c :: cs => p c && checkShape ps cs

/-- The 37 characters that must follow an opening quote for a UUID literal
match: 8-4-4-4-12 hex groups separated by dashes, then the closing quote. -/
def uuidShape : List (Char → Bool) :=
  List.replicate 8 hexOk ++ [fun c => c == '-'] ++
  List.replicate 4 hexOk ++ [fun c => c == '-'] ++
  List.replicate 4 hexOk ++ [fun c => c == '-'] ++
  List.replicate 4 hexOk ++ [fun c => c == '-'] ++
  List.replicate 12 hexOk ++ [fun c => c == squote]

def uuidSubF : Nat → List Char → List Char
  | _, [] => []
  | 0, l => l
  | fuel+1, c :: cs =>
    if c = squote && checkShape uuidShape cs then
      squote :: '?' :: squote :: uuidSubF fuel (cs.drop 37)
    else
      c :: uuidSubF fuel cs

/-- `re.sub` for the UUID pattern. -/
def uuidSub (l : List Char) : List Char := uuidSubF l.length l

/-! ### Pass 2: string literals  (`re.sub(r"'[^']*'", "'?'", s)`) -/

def strSubF : Nat → List Char → List Char
  | _, [] => []
  | 0, l => l
  | fuel+1, c :: cs =>
    if c = squote then
      -- `[^']*` is greedy but cannot cross a quote: the match ends at the
      -- first following quote.  If no quote follows anywhere, neither this
      -- position nor any later one can match, so the rest is untouched.
      if squote ∈ cs then
        squote :: '?' :: squote :: strSubF fuel (cs.drop (cs.indexOf squote + 1))
      else c :: cs
    else c :: strSubF fuel cs

/-- `re.sub` for the quoted-string pattern. -/
def strSub (l : List Char) : List Char := strSubF l.length l

/-! ### Pass 3: integer literals  (`re.sub(r"\b\d+\b", "?", s)`) -/

/-- The scanner carries whether the previous character was a word character
(start of string counts as a boundary).  A match requires a boundary before a
maximal digit run and a boundary after it; `\d+` cannot backtrack usefully and
no match can begin inside a digit run, so a failed run is copied whole. -/
def numSubF : Nat → Bool → List Char → List Char
  | _, _, [] => []
  | 0, _, l => l
  | fuel+1, prevWord, c :: cs =>
    if !prevWord && c.isDigit then
      if boundaryAfter ((c :: cs).dropWhile Char.isDigit) then
        '?' :: numSubF fuel false ((c :: cs).dropWhile Char.isDigit)
      else
        (c :: cs).takeWhile Char.isDigit ++ numSubF fuel true ((c :: cs).dropWhile Char.isDigit)
    else c :: numSubF fuel (isWordChar c) cs

/-- `re.sub` for the standalone-integer pattern. -/
def numSub (prevWord : Bool) (l : List Char) : List Char := numSubF l.length prevWord l

/-- Decision procedure: does `\b\d+\b` match anywhere (same scan as `numSubF`)? -/
def hasIntLitF : Nat → Bool → List Char → Bool
  | _, _, [] => false
  | 0, _, _ => false
  | fuel+1, prevWord, c :: cs =>
    if !prevWord && c.isDigit then
      if boundaryAfter ((c :: cs).dropWhile Char.isDigit) then true
      else hasIntLitF fuel true ((c :: cs).dropWhile Char.isDigit)
    else hasIntLitF fuel (isWordChar c) cs

def hasIntLit (prevWord : Bool) (l : List Char) : Bool := hasIntLitF l.length prevWord l

/-! ### Pass 4: IN clauses  (`re.sub(r"IN\s*\([^)]+\)", "IN (?)", s, IGNORECASE)`) -/

/-- `[^)]`: any character other than the closing parenthesis. -/
def notRParen (c : Char) : Bool := !(c = ')')

/-- Try to match `IN\s*\([^)]+\)` at the head of the list; on success return
the remainder after the closing parenthesis.  `\s*` is maximal (a shorter
whitespace run would leave a whitespace character where `(` is required) and
`[^)]+` runs to the first `)` and must be nonempty. -/
def matchIn : List Char → Option (List Char)
  | c1 :: c2 :: rest =>
    if isInChar c1 && isNChar c2 then
      match rest.dropWhile isSpaceChar with
      | d :: inner =>
        if d = '(' then
          match inner.dropWhile notRParen with
          | _ :: tail =>
            if (inner.takeWhile notRParen).isEmpty then none else some tail
          | [] => none
        else none
      | [] => none
    else none
  | _ => none

/-- The replacement text `IN (?)`. -/
def inRepl : List Char := ['I', 'N', ' ', '(', '?', ')']

def inSubF : Nat → List Char → List Char
  | _, [] => []
  | 0, l => l
  | fuel+1, c :: cs =>
    match matchIn (c :: cs) with
    | some rest => inRepl ++ inSubF fuel rest
    | none => c :: inSubF fuel cs

/-- `re.sub` for the IN-clause pattern. -/
def inSub (l : List Char) : List Char := inSubF l.length l

/-- Does `IN\s*\([^)]+\)` match anywhere in the list? -/
def hasInClause : List Char → Bool
  | [] => false
  | c :: cs => (matchIn (c :: cs)).isSome || hasInClause cs

/-! ### `normalize_query` (n_plus_one.py lines 21-55) -/

def normalizeChars (l : List Char) : List Char :=
  inSub (numSub false (strSub (uuidSub l)))

/-- `normalize_query`: the four `re.sub` passes applied in source order
(UUIDs, then quoted strings, then standalone integers, then IN clauses). -/
def normalize_query (s : String) : String := ⟨normalizeChars s.data⟩

/-- `true` iff the string contains no single-quote character (hence no quoted
string literal and no quoted UUID literal). -/
def noQuote (s : String) : Bool := s.data.all (fun c => !(c = squote))

/-! ### `detect_n_plus_one` (n_plus_one.py lines 58-95) -/

/-- `N1Pattern` dataclass. -/
structure N1Pattern where
  normalized_query : String
  count : Nat
  sample_queries : List String
deriving DecidableEq, Repr

/-- One step of building `normalized_groups`: Python dict semantics — an
existing key keeps its position and gets the query appended to its list, a
new key is appended at the end (insertion order). -/
def upsert : List (String × List String) → String → String → List (String × List String)
  | [], key, sql => [(key, [sql])]
  | (k, v) :: rest, key, sql =>
    if k = key then (k, v ++ [sql]) :: rest else (k, v) :: upsert rest key sql

/-- The grouping loop of `detect_n_plus_one`.  The `queries` argument holds
the `'sql'` field of each captured query dict (the `'time'` field is never
read by the detector). -/
def groupQueries : List String → List (String × List String) → List (String × List String)
  | [], acc => acc
  | q :: qs, acc => groupQueries qs (upsert acc (normalize_query q) q)

/-- Association-list lookup (first entry wins, empty list when absent). -/
def valOf : List (String × List String) → String → List String
  | [], _ => []
  | (k, v) :: rest, key => if k = key then v else valOf rest key

/-- The pattern-building loop: one `N1Pattern` per group of size `>= 3`, in
group (insertion) order, carrying the first three member texts. -/
def patternsOf (groups : List (String × List String)) : List N1Pattern :=
  groups.filterMap fun kv =>
    if 3 ≤ kv.2.length then some ⟨kv.1, kv.2.length, kv.2.take 3⟩ else none

/-- The pattern list before the final sort. -/
def prePatterns (qs : List String) : List N1Pattern :=
  patternsOf (groupQueries qs [])

/-- Insert into a descending-by-count list, before the first element of equal
or smaller count (this is the unique stable descending order, matching
Python's stable `list.sort(key=..., reverse=True)`). -/
def insertDesc (x : N1Pattern) : List N1Pattern → List N1Pattern
  | [] => [x]
  | q :: qs => if q.count ≤ x.count then x :: q :: qs else q :: insertDesc x qs

/-- Stable sort by `count` descending. -/
def sortByCountDesc : List N1Pattern → List N1Pattern
  | [] => []
  | x :: xs => insertDesc x (sortByCountDesc xs)

/-- `detect_n_plus_one`: group by normalized form, keep groups of 3+
occurrences, sort by count descending (stable). -/
def detect_n_plus_one (qs : List String) : List N1Pattern :=
  sortByCountDesc (prePatterns qs)

/-- First-seen-key order produced by the grouping loop: the keys of
`groupQueries qs acc` beyond those of `acc`, in order of first appearance. -/
def newKeys : List String → List String → List String
  | [], _ => []
  | q :: qs, seen =>
    if normalize_query q ∈ seen then newKeys qs seen
    else normalize_query q :: newKeys qs (normalize_query q :: seen)

/-- Index of the first query whose normalized form is `k` (list length when
there is none). -/
def posIn (k : String) (qs : List String) : Nat :=
  qs.findIdx (fun q => normalize_query q == k)

/-! ### `resolve_thresholds` (config.py lines 22-78) -/

/-- A Python dict of threshold overrides, as an insertion-ordered
association list.  Threshold values in this repository are integers. -/
abbrev Overrides := List (String × Int)

/-- `DEFAULTS` (config.py lines 15-19). -/
def DEFAULTS : Overrides :=
  [("response_time_ms", 100), ("query_count", 10), ("n_plus_one_threshold", 10)]

/-- `dict.__setitem__`: overwrite in place if the key exists, append
otherwise. -/
def setKey : Overrides → String → Int → Overrides
  | [], k, v => [(k, v)]
  | (k0, v0) :: rest, k, v =>
    if k0 = k then (k0, v) :: rest else (k0, v0) :: setKey rest k v

/-- `dict.update`: merge key by key, later layers overwrite only the keys
they define. -/
def dictUpdate (base upd : Overrides) : Overrides :=
  upd.foldl (fun acc kv => setKey acc kv.1 kv.2) base

/-- `resolve_thresholds`.  The two fallible layers are passed as values:
`Except.error ()` models a lookup that raises (swallowed by the
`try/except`), `Except.ok none` models an absent setting (`getattr`
returning `None`), `Except.ok (some cfg)` a present mapping, which
contributes only when truthy (non-empty).  `fileCfg` is the outcome of the
caller-stack walk for `MERCURY_PERFORMANCE_THRESHOLDS` (first frame that
exposes one), `inline` the inline keyword arguments. -/
def resolve_thresholds (django fileCfg : Except Unit (Option Overrides))
    (inline : Overrides) : Overrides × Bool :=
  let s1 : Overrides × Bool :=
    match django with
    | Except.ok (some cfg) =>
      if cfg.isEmpty then (DEFAULTS, true) else (dictUpdate DEFAULTS cfg, false)
    | _ => (DEFAULTS, true)
  let s2 : Overrides × Bool :=
    match fileCfg with
    | Except.ok (some cfg) =>
      if cfg.isEmpty then s1 else (dictUpdate s1.1 cfg, false)
    | _ => s1
  if inline.isEmpty then s2 else (dictUpdate s2.1 inline, false)

/-- A layer that contributes nothing: it raised, was absent, or was falsy
(empty mapping). -/
def layerEmptyish : Except Unit (Option Overrides) → Bool
  | Except.ok (some cfg) => cfg.isEmpty
  | _ => true

/-! ### Python string helpers used by the report renderer -/

/-- Python `"\n".join(lines)`. -/
def joinSep (sep : String) : List String → String
  | [] => ""
  | [x] => x
  | x :: y :: xs => x ++ sep ++ joinSep sep (y :: xs)

/-- Python `s.split("\n")` (keeps empty pieces). -/
def splitNl : List Char → List (List Char)
  | [] => [[]]
  | c :: cs =>
    if c = '\n' then [] :: splitNl cs
    else
      match splitNl cs with
      | s :: ss => (c :: s) :: ss
      | [] => [[c]]

def pyReplaceF : Nat → List Char → List Char → List Char → List Char
  | _, _, _, [] => []
  | 0, _, _, l => l
  | fuel+1, pat, repl, c :: cs =>
    if pat ≠ [] ∧ pat.isPrefixOf (c :: cs) then
      repl ++ pyReplaceF fuel pat repl ((c :: cs).drop pat.length)
    else c :: pyReplaceF fuel pat repl cs

/-- Python `s.replace(pat, repl)` for a nonempty pattern. -/
def pyReplace (pat repl l : List Char) : List Char := pyReplaceF l.length pat repl l

/-- Python `s.strip()` (ASCII whitespace). -/
def pyStrip (l : List Char) : List Char :=
  ((l.dropWhile isSpaceChar).reverse.dropWhile isSpaceChar).reverse

/-- The per-line cleaning `_format_report` applies to warning messages:
`line.replace("⚠️", "").replace("ℹ️", "").strip()`. -/
def stripWarnLine (l : List Char) : List Char :=
  pyStrip (pyReplace "ℹ️".data [] (pyReplace "⚠️".data [] l))

/-- The per-line cleaning `_format_report` applies to failure messages:
`line.replace("⏱️", "").replace("🔢", "").replace("🔄", "").strip()`. -/
def stripFailLine (l : List Char) : List Char :=
  pyStrip (pyReplace "🔄".data [] (pyReplace "🔢".data [] (pyReplace "⏱️".data [] l)))

/-- `pat` occurs as a literal substring of `s`. -/
def strContains (s pat : String) : Prop := pat.data <:+: s.data

instance (s pat : String) : Decidable (strContains s pat) := by
  unfold strContains; infer_instance

/-! ### Thresholds and `MonitorResult` (monitor.py lines 19-66) -/

/-- The three threshold fields read by the monitor (resolution guarantees all
three are present; measured time is an opaque numeric, modelled as `ℚ`). -/
structure Thresholds where
  response_time_ms : ℚ
  query_count : Nat
  n_plus_one_threshold : Nat
deriving DecidableEq, Repr

/-- `MonitorResult` dataclass.  `queries` holds the `'sql'` texts of the
captured query dicts, in capture order. -/
structure MonitorResult where
  response_time_ms : ℚ := 0
  query_count : Nat := 0
  queries : List String := []
  n_plus_one_patterns : List N1Pattern := []
  thresholds : Thresholds
  used_defaults : Bool := false
  failures : List String := []
  warnings : List String := []
  test_name : String := ""
  test_location : String := ""
deriving DecidableEq, Repr

/-! ### Verdict engine `_check_thresholds` (monitor.py lines 281-351) -/

/-- `int(n1_threshold * 0.8)`: the float product truncates to the integer
floor of `8T/10` for every representable threshold. -/
def warnThreshold (t : Nat) : Nat := t * 8 / 10

/-- `max(3, int(n1_threshold * 0.5))`. -/
def noticeThreshold (t : Nat) : Nat := max 3 (t / 2)

/-- Two-decimal rendering of a value given as hundredths (truncation toward
zero; no claim depends on the final digit's rounding mode). -/
def fmtCents (n : Int) : String :=
  let a : Nat := n.natAbs
  (if n < 0 then "-" else "") ++ toString (a / 100) ++ "." ++
    (if a % 100 < 10 then "0" else "") ++ toString (a % 100)

/-- Python `f"{x:.2f}"` on a rational measurement. -/
def fmtF2 (q : ℚ) : String := fmtCents (q.num * 100 / (q.den : Int))

/-- Python `f"{x * k:.2f}"`, computed on the numerator so that the scaling
stays in integer arithmetic (truncated division is invariant under the
common factor, so this equals `fmtF2 (q * k)`). -/
def fmtF2mul (q : ℚ) (k : Int) : String := fmtCents (q.num * k * 100 / (q.den : Int))

/-- Python `f"{x / k:.2f}"`, computed on the denominator (equals
`fmtF2 (q / k)` for positive `k`). -/
def fmtF2div (q : ℚ) (k : Int) : String := fmtCents (q.num * 100 / ((q.den : Int) * k))

/-- Python `f"{x}"` for a threshold value (integers print as integers). -/
def pyRepr (q : ℚ) : String := if q.den = 1 then toString q.num else fmtF2 q

/-- Python slice `l[:k]` (a negative bound counts from the end, clamped at
zero). -/
def pySliceTo (l : List Char) (k : Int) : List Char :=
  if k < 0 then l.take (((l.length : Int) + k).toNat) else l.take k.toNat

/-- `_truncate_sql` (monitor.py lines 496-508): unchanged when within the
limit, otherwise `sql[:max_length - 3] + "..."` with Python slice
semantics. -/
def truncate_sql (sql : String) (maxLength : Int) : String :=
  if (sql.length : Int) ≤ maxLength then sql
  else (⟨pySliceTo sql.data (maxLength - 3)⟩ : String) ++ "..."

/-- The response-time failure message. -/
def responseTimeFailure (r : MonitorResult) : String :=
  "Response time " ++ fmtF2 r.response_time_ms ++ "ms exceeded threshold " ++
    pyRepr r.thresholds.response_time_ms ++ "ms (+" ++
    fmtF2 (r.response_time_ms - r.thresholds.response_time_ms) ++ "ms over)"

/-- The query-count failure message. -/
def queryCountFailure (r : MonitorResult) : String :=
  "Query count " ++ toString r.query_count ++ " exceeded threshold " ++
    toString r.thresholds.query_count ++ " (+" ++
    toString (r.query_count - r.thresholds.query_count) ++ " extra queries)"

/-- The N+1 failure message (severity 1). -/
def n1FailureMsg (t : Nat) (p : N1Pattern) : String :=
  "N+1 pattern detected: " ++ toString p.count ++ " similar queries (threshold: " ++
    toString t ++ ")\n   Pattern: " ++ truncate_sql p.normalized_query 80 ++
    "\n   Examples:\n" ++
    joinSep "\n" ((p.sample_queries.take 3).map fun q => "      → " ++ truncate_sql q 70)

/-- The N+1 warning message (severity 2). -/
def n1WarningMsg (t : Nat) (p : N1Pattern) : String :=
  "N+1 WARNING: " ++ toString p.count ++ " similar queries detected (approaching threshold: " ++
    toString t ++ ")\n   Pattern: " ++ truncate_sql p.normalized_query 80 ++
    "\n   Consider using select_related() or prefetch_related()"

/-- The N+1 notice message (severity 3). -/
def n1NoticeMsg (p : N1Pattern) : String :=
  "N+1 notice: " ++ toString p.count ++ " similar queries\n   Pattern: " ++
    truncate_sql p.normalized_query 80

/-- The pattern loop of `_check_thresholds`: each pattern lands in exactly one
severity tier via the `if/elif/elif` cascade; failures and warnings are
appended in pattern order. -/
def checkN1 (t : Nat) : List N1Pattern → List String × List String
  | [] => ([], [])
  | p :: ps =>
    let rest := checkN1 t ps
    if t ≤ p.count then (n1FailureMsg t p :: rest.1, rest.2)
    else if warnThreshold t ≤ p.count then (rest.1, n1WarningMsg t p :: rest.2)
    else if noticeThreshold t ≤ p.count then (rest.1, n1NoticeMsg p :: rest.2)
    else rest

/-- `_check_thresholds`: appends to `result.failures` / `result.warnings` in
the fixed order response time, query count, then one entry per pattern. -/
def check_thresholds (r : MonitorResult) : MonitorResult :=
  let f1 : List String :=
    if r.thresholds.response_time_ms < r.response_time_ms then [responseTimeFailure r] else []
  let f2 : List String :=
    if r.thresholds.query_count < r.query_count then [queryCountFailure r] else []
  let n1 := checkN1 r.thresholds.n_plus_one_threshold r.n_plus_one_patterns
  { r with
    failures := r.failures ++ (f1 ++ (f2 ++ n1.1)),
    warnings := r.warnings ++ n1.2 }

/-! ### Report renderer `_format_report` (monitor.py lines 354-545) -/

/-- ANSI codes (class `Colors`); every code is the empty string when color is
disabled via the NO_COLOR convention.  Only the codes the report uses are
modelled. -/
structure Colors where
  reset : String
  bold : String
  dim : String
  green : String
  yellow : String
  red : String
  blue : String
  cyan : String
deriving DecidableEq, Repr

def mkColors (disabled : Bool) : Colors :=
  if disabled then ⟨"", "", "", "", "", "", "", ""⟩
  else ⟨"\x1b[0m", "\x1b[1m", "\x1b[2m", "\x1b[32m", "\x1b[33m", "\x1b[31m", "\x1b[34m", "\x1b[36m"⟩

/-- `'=' * 60`. -/
def eq60 : String := ⟨List.replicate 60 '='⟩

/-- `_format_duration` (monitor.py lines 479-493). -/
def fmtDuration (ms : ℚ) : String :=
  if ms < 1 then fmtF2mul ms 1000 ++ "μs"
  else if ms < 1000 then fmtF2 ms ++ "ms"
  else fmtF2div ms 1000 ++ "s"

/-- `_format_pattern_severity_color` (monitor.py lines 529-545): label and
color for a pattern, by count against the N+1 threshold. -/
def severityPair (c : Colors) (count t : Nat) : String × String :=
  if t ≤ count then ("FAIL", c.red)
  else if warnThreshold t ≤ count then ("WARN", c.yellow)
  else ("INFO", c.blue)

/-- One pattern line of the report's N+1 section. -/
def patternLine (c : Colors) (t : Nat) (p : N1Pattern) : String :=
  "   " ++ (severityPair c p.count t).2 ++ (severityPair c p.count t).1 ++ c.reset ++
    " [" ++ toString p.count ++ "x] " ++ c.dim ++
    truncate_sql p.normalized_query 70 ++ c.reset

def headerLines (c : Colors) : List String :=
  ["\n" ++ c.bold ++ eq60 ++ c.reset,
   c.bold ++ c.cyan ++ "MERCURY PERFORMANCE REPORT" ++ c.reset,
   c.bold ++ eq60 ++ c.reset]

def contextLines (c : Colors) (r : MonitorResult) : List String :=
  if r.test_name = "" ∧ r.test_location = "" then []
  else
    [""] ++
    (if r.test_name = "" then [] else [c.blue ++ "Test:" ++ c.reset ++ " " ++ r.test_name]) ++
    (if r.test_location = "" then []
     else [c.dim ++ "Location:" ++ c.reset ++ " " ++ c.cyan ++ r.test_location ++ c.reset])

def metricsLines (c : Colors) (r : MonitorResult) : List String :=
  ["\n" ++ c.bold ++ "METRICS:" ++ c.reset,
   "   Response time: " ++
     (if r.response_time_ms ≤ r.thresholds.response_time_ms then c.green else c.red) ++
     fmtDuration r.response_time_ms ++ c.reset ++ " " ++ c.dim ++ "(threshold: " ++
     fmtDuration r.thresholds.response_time_ms ++ ")" ++ c.reset,
   "   Query count:   " ++
     (if r.query_count ≤ r.thresholds.query_count then c.green else c.red) ++
     toString r.query_count ++ c.reset ++ " " ++ c.dim ++ "(threshold: " ++
     toString r.thresholds.query_count ++ ")" ++ c.reset]

def patternSection (c : Colors) (r : MonitorResult) : List String :=
  if r.n_plus_one_patterns.isEmpty then
    ["\n" ++ c.green ++ "✓" ++ c.reset ++ " No N+1 patterns detected"]
  else
    ("\n" ++ c.bold ++ c.yellow ++ "N+1 PATTERNS DETECTED:" ++ c.reset) ::
    r.n_plus_one_patterns.flatMap fun p =>
      patternLine c r.thresholds.n_plus_one_threshold p ::
      (p.sample_queries.take 3).map fun s =>
        "      " ++ c.dim ++ "→ " ++ truncate_sql s 65 ++ c.reset

def warnSection (c : Colors) (r : MonitorResult) : List String :=
  if r.warnings.isEmpty then []
  else
    ("\n" ++ c.bold ++ c.yellow ++ "WARNINGS:" ++ c.reset) ::
    r.warnings.flatMap fun w =>
      (splitNl w.data).map fun ln =>
        "   " ++ c.yellow ++ "•" ++ c.reset ++ " " ++ (⟨stripWarnLine ln⟩ : String)

def failSection (c : Colors) (r : MonitorResult) : List String :=
  if r.failures.isEmpty then []
  else
    ("\n" ++ c.bold ++ c.red ++ "FAILURES:" ++ c.reset) ::
    r.failures.flatMap fun f =>
      (splitNl f.data).map fun ln =>
        "   " ++ c.red ++ "✗" ++ c.reset ++ " " ++ (⟨stripFailLine ln⟩ : String)

def defaultsNote (c : Colors) (r : MonitorResult) : List String :=
  if r.used_defaults then
    ["\n" ++ c.dim ++ "Using default thresholds (no config found)" ++ c.reset]
  else []

def footerLine (c : Colors) : String := c.bold ++ eq60 ++ c.reset ++ "\n"

/-- The `lines` list built by `_format_report`, in source order. -/
def reportLines (c : Colors) (r : MonitorResult) : List String :=
  headerLines c ++ contextLines c r ++ metricsLines c r ++ patternSection c r ++
    warnSection c r ++ failSection c r ++ defaultsNote c r ++ [footerLine c]

/-- `_format_report`: `"\n".join(lines)`. -/
def format_report (c : Colors) (r : MonitorResult) : String :=
  joinSep "\n" (reportLines c r)

/-! ### Monitoring session `monitor` (monitor.py lines 149-278) -/

/-- The warning appended on entry when only defaults were found. -/
def defaultsWarning : String :=
  "No MERCURY_PERFORMANCE_THRESHOLDS config found. Using defaults. " ++
  "Configure in settings.py or test file to remove this warning."

/-- Phase 1 of `monitor` (entry): thresholds and `used_defaults` come from
`resolve_thresholds`, test identity from the stack walk (both passed in as
the outcome of those collaborators); the defaults warning is appended before
the monitored body runs. -/
def monitorEnter (th : Thresholds) (usedDefaults : Bool)
    (testName testLocation : String) : MonitorResult :=
  { response_time_ms := 0, query_count := 0, queries := [], n_plus_one_patterns := [],
    thresholds := th, used_defaults := usedDefaults,
    failures := [],
    warnings := if usedDefaults then [defaultsWarning] else [],
    test_name := testName, test_location := testLocation }

/-- Phase 3 of `monitor` (exit): fill the metrics from the capture
collaborator, detect patterns, check thresholds, and raise
`AssertionError(_format_report(result))` iff the failure list is non-empty.
The second component is the raised assertion message (`none` = normal
completion); this is the only place in the session that converts failures
into an error, and it runs exactly once at scope exit. -/
def monitorExit (colorsDisabled : Bool) (entered : MonitorResult)
    (captured : List String) (elapsedMs : ℚ) : MonitorResult × Option String :=
  let r1 := { entered with
    response_time_ms := elapsedMs,
    query_count := captured.length,
    queries := captured,
    n_plus_one_patterns := detect_n_plus_one captured }
  let r2 := check_thresholds r1
  (r2, if r2.failures.isEmpty then none else some (format_report (mkColors colorsDisabled) r2))

/-- A whole session: entry then exit. -/
def monitorRun (colorsDisabled : Bool) (th : Thresholds) (usedDefaults : Bool)
    (testName testLocation : String) (captured : List String) (elapsedMs : ℚ) :
    MonitorResult × Option String :=
  monitorExit colorsDisabled (monitorEnter th usedDefaults testName testLocation)
    captured elapsedMs


/-! ## Generic list helpers -/

theorem length_dropWhile_le (p : Char → Bool) (l : List Char) :
    (l.dropWhile p).length ≤ l.length :=
  (l.dropWhile_sublist p).length_le

theorem dropWhile_head_false (p : Char → Bool) (l : List Char) (x : Char) (xs : List Char)
    (h : l.dropWhile p = x :: xs) : p x = false := by
  induction l with
  | nil => simp at h
  | cons c cs ih =>
    by_cases hc : p c
    · rw [List.dropWhile_cons_of_pos hc] at h; exact ih h
    · rw [List.dropWhile_cons_of_neg hc] at h
      cases h
      exact Bool.of_not_eq_true hc

theorem dropWhile_append_of_stop (p : Char → Bool) (a : List Char) (x : Char)
    (r : List Char) (hx : p x = false) :
    (a ++ x :: r).dropWhile p = a.dropWhile p ++ x :: r := by
  induction a with
  | nil => simp [List.dropWhile, hx]
  | cons c cs ih =>
    by_cases hc : p c
    · simp only [List.cons_append, List.dropWhile_cons_of_pos hc, ih]
    · simp only [List.cons_append, List.dropWhile_cons_of_neg hc]

/-! ## Fuel irrelevance and unfolding equations for the scanners -/

theorem uuidSubF_irrel (f1 f2 : Nat) (l : List Char) (h1 : l.length ≤ f1)
    (h2 : l.length ≤ f2) : uuidSubF f1 l = uuidSubF f2 l := by
  match f1, f2, l with
  | g1, g2, [] => cases g1 <;> cases g2 <;> rfl
  | 0, g2, c :: cs => simp at h1
  | g1+1, 0, c :: cs => simp at h2
  | a+1, b+1, c :: cs =>
    simp only [uuidSubF]
    simp only [List.length_cons, Nat.add_le_add_iff_right] at h1 h2
    have hd : (cs.drop 37).length ≤ cs.length := by
      simp only [List.length_drop]; omega
    by_cases hc : (decide (c = squote) && checkShape uuidShape cs) = true
    · rw [if_pos hc, if_pos hc, uuidSubF_irrel a b _ (le_trans hd h1) (le_trans hd h2)]
    · rw [if_neg hc, if_neg hc, uuidSubF_irrel a b cs h1 h2]

theorem uuidSub_nil : uuidSub [] = [] := rfl

theorem uuidSub_cons (c : Char) (cs : List Char) :
    uuidSub (c :: cs) =
      if c = squote && checkShape uuidShape cs then
        squote :: '?' :: squote :: uuidSub (cs.drop 37)
      else c :: uuidSub cs := by
  show uuidSubF (cs.length + 1) (c :: cs) = _
  simp only [uuidSubF]
  have hd : (cs.drop 37).length ≤ cs.length := by
    simp only [List.length_drop]; omega
  by_cases hc : (decide (c = squote) && checkShape uuidShape cs) = true
  · rw [if_pos hc, if_pos hc, uuidSubF_irrel cs.length (cs.drop 37).length _ hd le_rfl]; rfl
  · rw [if_neg hc, if_neg hc]; rfl

theorem strSubF_irrel (f1 f2 : Nat) (l : List Char) (h1 : l.length ≤ f1)
    (h2 : l.length ≤ f2) : strSubF f1 l = strSubF f2 l := by
  match f1, f2, l with
  | g1, g2, [] => cases g1 <;> cases g2 <;> rfl
  | 0, g2, c :: cs => simp at h1
  | g1+1, 0, c :: cs => simp at h2
  | a+1, b+1, c :: cs =>
    simp only [strSubF]
    simp only [List.length_cons, Nat.add_le_add_iff_right] at h1 h2
    have hd : (cs.drop (cs.indexOf squote + 1)).length ≤ cs.length := by
      simp only [List.length_drop]; omega
    by_cases hc : c = squote
    · rw [if_pos hc, if_pos hc]
      by_cases hm : squote ∈ cs
      · rw [if_pos hm, if_pos hm, strSubF_irrel a b _ (le_trans hd h1) (le_trans hd h2)]
      · rw [if_neg hm, if_neg hm]
    · rw [if_neg hc, if_neg hc, strSubF_irrel a b cs h1 h2]

theorem strSub_nil : strSub [] = [] := rfl

theorem strSub_cons (c : Char) (cs : List Char) :
    strSub (c :: cs) =
      if c = squote then
        if squote ∈ cs then
          squote :: '?' :: squote :: strSub (cs.drop (cs.indexOf squote + 1))
        else c :: cs
      else c :: strSub cs := by
  show strSubF (cs.length + 1) (c :: cs) = _
  simp only [strSubF]
  have hd : (cs.drop (cs.indexOf squote + 1)).length ≤ cs.length := by
    simp only [List.length_drop]; omega
  by_cases hc : c = squote
  · rw [if_pos hc, if_pos hc]
    by_cases hm : squote ∈ cs
    · rw [if_pos hm, if_pos hm, strSubF_irrel cs.length _ _ hd le_rfl]; rfl
    · rw [if_neg hm, if_neg hm]
  · rw [if_neg hc, if_neg hc]; rfl

theorem numSubF_irrel (f1 f2 : Nat) (pw : Bool) (l : List Char) (h1 : l.length ≤ f1)
    (h2 : l.length ≤ f2) : numSubF f1 pw l = numSubF f2 pw l := by
  match f1, f2, l with
  | g1, g2, [] => cases g1 <;> cases g2 <;> rfl
  | 0, g2, c :: cs => simp at h1
  | g1+1, 0, c :: cs => simp at h2
  | a+1, b+1, c :: cs =>
    simp only [numSubF]
    simp only [List.length_cons, Nat.add_le_add_iff_right] at h1 h2
    by_cases hc : (!pw && c.isDigit) = true
    · have hdc : c.isDigit = true := (Bool.and_eq_true_iff.mp hc).2
      have hd : ((c :: cs).dropWhile Char.isDigit).length ≤ cs.length := by
        rw [List.dropWhile_cons_of_pos hdc]; exact length_dropWhile_le _ cs
      rw [if_pos hc, if_pos hc]
      by_cases hb : boundaryAfter ((c :: cs).dropWhile Char.isDigit) = true
      · rw [if_pos hb, if_pos hb,
          numSubF_irrel a b false _ (le_trans hd h1) (le_trans hd h2)]
      · rw [if_neg hb, if_neg hb,
          numSubF_irrel a b true _ (le_trans hd h1) (le_trans hd h2)]
    · rw [if_neg hc, if_neg hc, numSubF_irrel a b (isWordChar c) cs h1 h2]

theorem numSub_nil (pw : Bool) : numSub pw [] = [] := rfl

theorem numSub_cons (pw : Bool) (c : Char) (cs : List Char) :
    numSub pw (c :: cs) =
      if !pw && c.isDigit then
        if boundaryAfter ((c :: cs).dropWhile Char.isDigit) then
          '?' :: numSub false ((c :: cs).dropWhile Char.isDigit)
        else
          (c :: cs).takeWhile Char.isDigit ++ numSub true ((c :: cs).dropWhile Char.isDigit)
      else c :: numSub (isWordChar c) cs := by
  show numSubF (cs.length + 1) pw (c :: cs) = _
  simp only [numSubF]
  by_cases hc : (!pw && c.isDigit) = true
  · have hdc : c.isDigit = true := (Bool.and_eq_true_iff.mp hc).2
    have hd : ((c :: cs).dropWhile Char.isDigit).length ≤ cs.length := by
      rw [List.dropWhile_cons_of_pos hdc]; exact length_dropWhile_le _ cs
    rw [if_pos hc, if_pos hc]
    by_cases hb : boundaryAfter ((c :: cs).dropWhile Char.isDigit) = true
    · rw [if_pos hb, if_pos hb, numSubF_irrel cs.length _ false _ hd le_rfl]; rfl
    · rw [if_neg hb, if_neg hb, numSubF_irrel cs.length _ true _ hd le_rfl]; rfl
  · rw [if_neg hc, if_neg hc]; rfl

theorem hasIntLitF_irrel (f1 f2 : Nat) (pw : Bool) (l : List Char) (h1 : l.length ≤ f1)
    (h2 : l.length ≤ f2) : hasIntLitF f1 pw l = hasIntLitF f2 pw l := by
  match f1, f2, l with
  | g1, g2, [] => cases g1 <;> cases g2 <;> rfl
  | 0, g2, c :: cs => simp at h1
  | g1+1, 0, c :: cs => simp at h2
  | a+1, b+1, c :: cs =>
    simp only [hasIntLitF]
    simp only [List.length_cons, Nat.add_le_add_iff_right] at h1 h2
    by_cases hc : (!pw && c.isDigit) = true
    · have hdc : c.isDigit = true := (Bool.and_eq_true_iff.mp hc).2
      have hd : ((c :: cs).dropWhile Char.isDigit).length ≤ cs.length := by
        rw [List.dropWhile_cons_of_pos hdc]; exact length_dropWhile_le _ cs
      rw [if_pos hc, if_pos hc]
      by_cases hb : boundaryAfter ((c :: cs).dropWhile Char.isDigit) = true
      · rw [if_pos hb, if_pos hb]
      · rw [if_neg hb, if_neg hb,
          hasIntLitF_irrel a b true _ (le_trans hd h1) (le_trans hd h2)]
    · rw [if_neg hc, if_neg hc, hasIntLitF_irrel a b (isWordChar c) cs h1 h2]

theorem hasIntLit_nil (pw : Bool) : hasIntLit pw [] = false := rfl

theorem hasIntLit_cons (pw : Bool) (c : Char) (cs : List Char) :
    hasIntLit pw (c :: cs) =
      if !pw && c.isDigit then
        if boundaryAfter ((c :: cs).dropWhile Char.isDigit) then true
        else hasIntLit true ((c :: cs).dropWhile Char.isDigit)
      else hasIntLit (isWordChar c) cs := by
  show hasIntLitF (cs.length + 1) pw (c :: cs) = _
  simp only [hasIntLitF]
  by_cases hc : (!pw && c.isDigit) = true
  · have hdc : c.isDigit = true := (Bool.and_eq_true_iff.mp hc).2
    have hd : ((c :: cs).dropWhile Char.isDigit).length ≤ cs.length := by
      rw [List.dropWhile_cons_of_pos hdc]; exact length_dropWhile_le _ cs
    rw [if_pos hc, if_pos hc]
    by_cases hb : boundaryAfter ((c :: cs).dropWhile Char.isDigit) = true
    · rw [if_pos hb, if_pos hb]
    · rw [if_neg hb, if_neg hb, hasIntLitF_irrel cs.length _ true _ hd le_rfl]
      rfl
  · rw [if_neg hc, if_neg hc, hasIntLitF_irrel cs.length _ (isWordChar c) cs le_rfl le_rfl]
    rfl

/-! ## `matchIn` facts and `inSub` unfolding -/

theorem matchIn_length (l r : List Char) (h : matchIn l = some r) :
    r.length < l.length := by
  match l with
  | [] => simp [matchIn] at h
  | [c] => simp [matchIn] at h
  | c1 :: c2 :: rest =>
    simp only [matchIn] at h
    split at h
    · rename_i hc
      split at h
      · rename_i d inner hd
        split at h
        · rename_i hdp
          split at h
          · rename_i e tail he
            split at h
            · simp at h
            · rename_i hne
              have hr : tail = r := by simpa using h
              subst hr
              have h1 : (e :: tail).length ≤ inner.length := he ▸ length_dropWhile_le _ inner
              have h2 : (d :: inner).length ≤ rest.length := hd ▸ length_dropWhile_le _ rest
              simp only [List.length_cons] at h1 h2 ⊢
              omega
          · simp at h
        · simp at h
      · simp at h
    · simp at h

theorem matchIn_decomp (l r : List Char) (h : matchIn l = some r) :
    ∃ c1 c2 ws content, l = c1 :: c2 :: (ws ++ '(' :: (content ++ ')' :: r)) ∧
      isInChar c1 = true ∧ isNChar c2 = true ∧ (∀ x ∈ ws, isSpaceChar x = true) ∧
      content ≠ [] ∧ (∀ x ∈ content, x ≠ ')') := by
  match l with
  | [] => simp [matchIn] at h
  | [c] => simp [matchIn] at h
  | c1 :: c2 :: rest =>
    simp only [matchIn] at h
    split at h
    · rename_i hc
      split at h
      · rename_i d inner hd
        split at h
        · rename_i hdp
          split at h
          · rename_i e tail he
            split at h
            · simp at h
            · rename_i hne
              have hr : tail = r := by simpa using h
              subst hr
              subst hdp
              refine ⟨c1, c2, rest.takeWhile isSpaceChar, inner.takeWhile notRParen,
                ?_, (Bool.and_eq_true_iff.mp hc).1, (Bool.and_eq_true_iff.mp hc).2,
                ?_, ?_, ?_⟩
              · have hep : e = ')' := by
                  have := dropWhile_head_false notRParen inner e tail he
                  simpa [notRParen] using this
                have hi : inner = inner.takeWhile notRParen ++ ')' :: tail := by
                  conv_lhs => rw [← List.takeWhile_append_dropWhile notRParen inner]
                  rw [he, hep]
                have hres : rest = rest.takeWhile isSpaceChar ++ '(' :: inner := by
                  conv_lhs => rw [← List.takeWhile_append_dropWhile isSpaceChar rest]
                  rw [hd]
                conv_lhs => rw [hres, hi]
              · intro x hx
                exact List.mem_takeWhile_imp hx
              · intro hempty
                rw [hempty] at hne
                simp at hne
              · intro x hx
                have := List.mem_takeWhile_imp hx
                simpa [notRParen] using this
          · simp at h
        · simp at h
      · simp at h
    · simp at h

theorem matchIn_inRepl (m : List Char) : matchIn (inRepl ++ m) = some m := by
  show matchIn ('I' :: 'N' :: (' ' :: '(' :: '?' :: ')' :: m)) = some m
  simp only [matchIn]
  rw [if_pos (by decide)]
  have h1 : (' ' :: '(' :: '?' :: ')' :: m).dropWhile isSpaceChar =
      '(' :: '?' :: ')' :: m := by
    rw [List.dropWhile_cons_of_pos (by decide), List.dropWhile_cons_of_neg (by decide)]
  rw [h1]
  have h2 : ('?' :: ')' :: m).dropWhile notRParen = ')' :: m := by
    rw [List.dropWhile_cons_of_pos (by decide), List.dropWhile_cons_of_neg (by decide)]
  have h3 : ('?' :: ')' :: m).takeWhile notRParen = ['?'] := by
    rw [List.takeWhile_cons_of_pos (by decide), List.takeWhile_cons_of_neg (by decide)]
  simp [h2, h3]

theorem inSubF_irrel (f1 f2 : Nat) (l : List Char) (h1 : l.length ≤ f1)
    (h2 : l.length ≤ f2) : inSubF f1 l = inSubF f2 l := by
  match f1, f2, l with
  | g1, g2, [] => cases g1 <;> cases g2 <;> rfl
  | 0, g2, c :: cs => simp at h1
  | g1+1, 0, c :: cs => simp at h2
  | a+1, b+1, c :: cs =>
    simp only [inSubF]
    simp only [List.length_cons, Nat.add_le_add_iff_right] at h1 h2
    split
    · rename_i rest hm
      have hd : rest.length ≤ cs.length := by
        have := matchIn_length _ _ hm
        simp only [List.length_cons] at this
        omega
      rw [inSubF_irrel a b rest (le_trans hd h1) (le_trans hd h2)]
    · rename_i hm
      rw [inSubF_irrel a b cs h1 h2]

theorem inSub_nil : inSub [] = [] := rfl

theorem inSub_cons (c : Char) (cs : List Char) :
    inSub (c :: cs) =
      match matchIn (c :: cs) with
      | some rest => inRepl ++ inSub rest
      | none => c :: inSub cs := by
  show inSubF (cs.length + 1) (c :: cs) = _
  simp only [inSubF]
  split
  · rename_i rest hm
    have hd : rest.length ≤ cs.length := by
      have := matchIn_length _ _ hm
      simp only [List.length_cons] at this
      omega
    rw [inSubF_irrel cs.length rest.length rest hd le_rfl]
    rfl
  · rename_i hm
    rfl

theorem inSub_cons_match (c : Char) (cs rest : List Char)
    (h : matchIn (c :: cs) = some rest) :
    inSub (c :: cs) = inRepl ++ inSub rest := by
  rw [inSub_cons, h]

theorem inSub_cons_nomatch (c : Char) (cs : List Char)
    (h : matchIn (c :: cs) = none) :
    inSub (c :: cs) = c :: inSub cs := by
  rw [inSub_cons, h]

/-! ## Substring helpers -/

theorem strContains_intro (s pat : String) (a b : List Char)
    (h : a ++ pat.data ++ b = s.data) : strContains s pat := ⟨a, b, h⟩

theorem strContains_of_trans (s mid : String) (pat : String)
    (h1 : mid.data <:+: s.data) (h2 : pat.data <:+: mid.data) :
    strContains s pat := h2.trans h1

theorem mem_joinSep_contains (sep : String) (l : List String) (x : String) (hx : x ∈ l) :
    x.data <:+: (joinSep sep l).data := by
  induction l with
  | nil => simp at hx
  | cons a as ih =>
    cases as with
    | nil =>
      have : x = a := by simpa using hx
      subst this
      exact List.infix_rfl
    | cons b bs =>
      rcases List.mem_cons.mp hx with h | h
      · subst h
        show x.data <:+: (x ++ sep ++ joinSep sep (b :: bs)).data
        exact ⟨[], sep.data ++ (joinSep sep (b :: bs)).data, by
          simp [String.data_append]⟩
      · have hrec := ih h
        show x.data <:+: (a ++ sep ++ joinSep sep (b :: bs)).data
        refine hrec.trans ⟨a.data ++ sep.data, [], by simp [String.data_append]⟩

/-! ## More substring helpers -/

theorem strContains_append_right (x y p : String) (h : strContains x p) :
    strContains (x ++ y) p :=
  h.trans ⟨[], y.data, by simp [String.data_append]⟩

theorem strContains_append_left (x y p : String) (h : strContains y p) :
    strContains (x ++ y) p :=
  h.trans ⟨x.data, [], by simp [String.data_append]⟩

theorem strContains_self_right (x y : String) : strContains (x ++ y) y :=
  ⟨x.data, [], by simp [String.data_append]⟩

theorem strContains_self_left (x y : String) : strContains (x ++ y) x :=
  ⟨[], y.data, by simp [String.data_append]⟩

/-! ## C3: threshold resolution is total and defaulting -/

theorem resolve_snd (d f : Except Unit (Option Overrides)) (i : Overrides) :
    (resolve_thresholds d f i).2 = (layerEmptyish d && layerEmptyish f && i.isEmpty) := by
  have hfin : ∀ (p : Overrides × Bool),
      ((if i.isEmpty then p else (dictUpdate p.1 i, false)).2 : Bool) = (p.2 && i.isEmpty) := by
    intro p
    by_cases hi : i.isEmpty
    · rw [if_pos hi, hi, Bool.and_true]
    · rw [if_neg hi, Bool.not_eq_true] at *
      rw [hi, Bool.and_false]
  rcases d with u | od
  · rcases f with v | of
    · simpa [resolve_thresholds, layerEmptyish] using hfin (DEFAULTS, true)
    · rcases of with _ | cfg
      · simpa [resolve_thresholds, layerEmptyish] using hfin (DEFAULTS, true)
      · by_cases hc : cfg.isEmpty
        · have := hfin (DEFAULTS, true)
          simpa [resolve_thresholds, layerEmptyish, hc] using this
        · have := hfin (dictUpdate DEFAULTS cfg, false)
          simpa [resolve_thresholds, layerEmptyish, hc] using this
  · rcases od with _ | cfgd
    · rcases f with v | of
      · simpa [resolve_thresholds, layerEmptyish] using hfin (DEFAULTS, true)
      · rcases of with _ | cfg
        · simpa [resolve_thresholds, layerEmptyish] using hfin (DEFAULTS, true)
        · by_cases hc : cfg.isEmpty
          · have := hfin (DEFAULTS, true)
            simpa [resolve_thresholds, layerEmptyish, hc] using this
          · have := hfin (dictUpdate DEFAULTS cfg, false)
            simpa [resolve_thresholds, layerEmptyish, hc] using this
    · by_cases hcd : cfgd.isEmpty
      · rcases f with v | of
        · simpa [resolve_thresholds, layerEmptyish, hcd] using hfin (DEFAULTS, true)
        · rcases of with _ | cfg
          · simpa [resolve_thresholds, layerEmptyish, hcd] using hfin (DEFAULTS, true)
          · by_cases hc : cfg.isEmpty
            · have := hfin (DEFAULTS, true)
              simpa [resolve_thresholds, layerEmptyish, hcd, hc] using this
            · have := hfin (dictUpdate DEFAULTS cfg, false)
              simpa [resolve_thresholds, layerEmptyish, hcd, hc] using this
      · rcases f with v | of
        · simpa [resolve_thresholds, layerEmptyish, hcd] using
            hfin (dictUpdate DEFAULTS cfgd, false)
        · rcases of with _ | cfg
          · simpa [resolve_thresholds, layerEmptyish, hcd] using
              hfin (dictUpdate DEFAULTS cfgd, false)
          · by_cases hc : cfg.isEmpty
            · have := hfin (dictUpdate DEFAULTS cfgd, false)
              simpa [resolve_thresholds, layerEmptyish, hcd, hc] using this
            · have := hfin (dictUpdate (dictUpdate DEFAULTS cfgd) cfg, false)
              simpa [resolve_thresholds, layerEmptyish, hcd, hc] using this

/-- C3: `resolve_thresholds` never fails for any input: a raising settings or
caller-scope layer behaves exactly like an absent one (contributes nothing);
with no inline arguments and both layers absent (or raising) the result is
exactly the built-in defaults with `used_defaults = true`; and
`used_defaults` is `true` iff none of the three non-default layers
contributed any key (raising, absent, or falsy-empty layers contribute
nothing).  Totality itself is structural: the embedding is a total
function. -/
theorem c3_resolve_defaults (d f : Except Unit (Option Overrides)) (i : Overrides) :
    resolve_thresholds (Except.error ()) f i = resolve_thresholds (Except.ok none) f i ∧
    resolve_thresholds d (Except.error ()) i = resolve_thresholds d (Except.ok none) i ∧
    resolve_thresholds (Except.ok none) (Except.ok none) [] =
      ([("response_time_ms", 100), ("query_count", 10), ("n_plus_one_threshold", 10)], true) ∧
    resolve_thresholds (Except.error ()) (Except.error ()) [] =
      ([("response_time_ms", 100), ("query_count", 10), ("n_plus_one_threshold", 10)], true) ∧
    ((resolve_thresholds d f i).2 = true ↔
      (layerEmptyish d = true ∧ layerEmptyish f = true ∧ i = [])) := by
  refine ⟨rfl, rfl, rfl, rfl, ?_⟩
  rw [resolve_snd]
  simp [List.isEmpty_iff, and_assoc]

/-! ## C8: SQL truncation -/

/-- C8 counterexample: the claim quantifies over every caller-specified
maximum, but for `max_length = 0` the Python negative-slice semantics of
`sql[:max_length - 3]` produce `"abc..."` (length 6) from `"abcdef"`
(length 6 > 0), not a string of length 0. -/
theorem c8_counterexample :
    0 < "abcdef".length ∧ truncate_sql "abcdef" 0 = "abc..." ∧
      (truncate_sql "abcdef" 0).length ≠ 0 := by
  refine ⟨by decide, by decide, by decide⟩

/-- C8 (amended): for every SQL string and caller-specified maximum `m` with
`m ≥ 3` (every call in the repository uses 30 to 80): a string within the
limit is returned unchanged, and a longer string is truncated to exactly `m`
characters ending in `"..."`.  For `m < 3` the negative-slice arithmetic
violates the exact-length guarantee (see the counterexample). -/
theorem c8_truncate_spec (s : String) (m : Int) (h3 : 3 ≤ m) :
    ((s.length : Int) ≤ m → truncate_sql s m = s) ∧
    (m < (s.length : Int) →
      ((truncate_sql s m).length : Int) = m ∧ "...".data <:+ (truncate_sql s m).data) := by
  constructor
  · intro hle
    unfold truncate_sql
    rw [if_pos hle]
  · intro hlt
    have hneg : ¬ ((s.length : Int) ≤ m) := by omega
    unfold truncate_sql
    rw [if_neg hneg]
    constructor
    · have hk : ¬ (m - 3 < 0) := by omega
      have hdata : (((⟨pySliceTo s.data (m - 3)⟩ : String) ++ "...")).data =
          pySliceTo s.data (m - 3) ++ "...".data := by
        simp [String.data_append]
      have hlen : (((⟨pySliceTo s.data (m - 3)⟩ : String) ++ "...")).length =
          (pySliceTo s.data (m - 3)).length + 3 := by
        show (((⟨pySliceTo s.data (m - 3)⟩ : String) ++ "...")).data.length = _
        rw [hdata]
        simp
      rw [hlen]
      unfold pySliceTo
      rw [if_neg hk]
      have hsl : s.length = s.data.length := rfl
      have htk : (s.data.take (m - 3).toNat).length = min (m - 3).toNat s.data.length := by
        simp
      rw [htk]
      omega
    · exact ⟨(⟨pySliceTo s.data (m - 3)⟩ : String).data, by simp [String.data_append]⟩

/-- Witness for C8 at the spec's concrete scenario: truncating the
81-character query to 30 gives a 30-character string ending in `"..."`. -/
theorem c8_truncate_spec_witness :
    (3 : Int) ≤ 30 ∧
    (30 : Int) < ("SELECT * FROM users WHERE id = 1 AND name = 'test' AND email = 'test@example.com'".length : Int) ∧
    ((truncate_sql "SELECT * FROM users WHERE id = 1 AND name = 'test' AND email = 'test@example.com'" 30).length : Int) = 30 ∧
    "...".data <:+ (truncate_sql "SELECT * FROM users WHERE id = 1 AND name = 'test' AND email = 'test@example.com'" 30).data := by
  refine ⟨by decide, by decide, ?_⟩
  exact (c8_truncate_spec
    "SELECT * FROM users WHERE id = 1 AND name = 'test' AND email = 'test@example.com'"
    30 (by decide)).2 (by decide)

/-! ## C6: session exit raises iff failures are non-empty -/

/-- C6: at session exit the monitoring session raises an assertion failure
whose message is the full rendered text report iff the result's failure list
is non-empty; a session with an empty failure list completes normally.  In
the embedding, `monitorEnter` cannot signal an error at all and
`monitorExit` is the single point that converts failures into the raised
message, so the conversion happens exactly once, at exit time. -/
theorem c6_exit_raises (cd : Bool) (th : Thresholds) (ud : Bool) (nm loc : String)
    (qs : List String) (ms : ℚ) :
    ((monitorRun cd th ud nm loc qs ms).2 =
      if (monitorRun cd th ud nm loc qs ms).1.failures.isEmpty then none
      else some (format_report (mkColors cd) (monitorRun cd th ud nm loc qs ms).1)) ∧
    ((monitorRun cd th ud nm loc qs ms).2.isSome ↔
      (monitorRun cd th ud nm loc qs ms).1.failures ≠ []) := by
  constructor
  · rfl
  · show (if (monitorRun cd th ud nm loc qs ms).1.failures.isEmpty then none
      else some (format_report (mkColors cd) (monitorRun cd th ud nm loc qs ms).1)).isSome ↔ _
    by_cases he : (monitorRun cd th ud nm loc qs ms).1.failures.isEmpty
    · rw [if_pos he]
      simpa [List.isEmpty_iff] using he
    · rw [if_neg he]
      simp only [Option.isSome_some, true_iff]
      simpa [List.isEmpty_iff] using he

/-! ## C10: the defaults warning is first -/

/-- C10: whenever threshold resolution reports `used_defaults = true`, the
session appends the warning beginning
`"No MERCURY_PERFORMANCE_THRESHOLDS config found"` on entry — before the
monitored body runs — so the final warnings list of every defaults-only
session is non-empty and that message precedes every pattern-derived
warning, whatever the captured queries and metrics are. -/
theorem c10_defaults_warning_first (cd : Bool) (th : Thresholds) (nm loc : String)
    (qs : List String) (ms : ℚ) :
    (monitorEnter th true nm loc).warnings = [defaultsWarning] ∧
    "No MERCURY_PERFORMANCE_THRESHOLDS config found".data <+: defaultsWarning.data ∧
    (monitorRun cd th true nm loc qs ms).1.warnings =
      defaultsWarning :: (checkN1 th.n_plus_one_threshold (detect_n_plus_one qs)).2 := by
  exact ⟨rfl, by decide, rfl⟩

/-! ## C1: tiered severity classification in `_check_thresholds` -/

/-- C1: for every pattern and N+1 threshold `T`, the verdict engine
classifies the pattern into exactly one tier using the integer-truncated
cutpoints `int(T*0.8)` (= `warnThreshold`) and `max(3, int(T*0.5))`
(= `noticeThreshold`): `count >= T` emits exactly one failure naming the
(80-column-truncated) normalized shape and the up-to-three
(70-column-truncated) samples; `int(T*0.8) <= count < T` emits exactly one
warning containing the count; `max(3, int(T*0.5)) <= count < int(T*0.8)`
emits exactly one notice-style warning containing the count; below all
cutpoints the pattern produces no message.  The first conjunct shows each
pattern of a list contributes exactly its own singleton classification, in
list order. -/
theorem c1_verdict_tiers (t : Nat) (p : N1Pattern) (ps : List N1Pattern) :
    checkN1 t (p :: ps) =
      ((checkN1 t [p]).1 ++ (checkN1 t ps).1, (checkN1 t [p]).2 ++ (checkN1 t ps).2) ∧
    (t ≤ p.count →
      checkN1 t [p] = ([n1FailureMsg t p], []) ∧
      strContains (n1FailureMsg t p) (truncate_sql p.normalized_query 80) ∧
      (∀ q ∈ p.sample_queries.take 3, strContains (n1FailureMsg t p) (truncate_sql q 70))) ∧
    (warnThreshold t ≤ p.count → p.count < t →
      checkN1 t [p] = ([], [n1WarningMsg t p]) ∧
      strContains (n1WarningMsg t p) (toString p.count)) ∧
    (noticeThreshold t ≤ p.count → p.count < warnThreshold t →
      checkN1 t [p] = ([], [n1NoticeMsg p]) ∧
      strContains (n1NoticeMsg p) (toString p.count)) ∧
    (p.count < noticeThreshold t → p.count < warnThreshold t → p.count < t →
      checkN1 t [p] = ([], [])) := by
  refine ⟨?_, ?_, ?_, ?_, ?_⟩
  · by_cases h1 : t ≤ p.count
    · simp [checkN1, h1]
    · by_cases h2 : warnThreshold t ≤ p.count
      · simp [checkN1, h1, h2]
      · by_cases h3 : noticeThreshold t ≤ p.count
        · simp [checkN1, h1, h2, h3]
        · simp [checkN1, h1, h2, h3]
  · intro h1
    refine ⟨by simp [checkN1, h1], ?_, ?_⟩
    · unfold n1FailureMsg
      exact strContains_append_right _ _ _ (strContains_append_right _ _ _
        (strContains_self_right _ _))
    · intro q hq
      unfold n1FailureMsg
      apply strContains_append_left
      exact strContains_of_trans _ ("      → " ++ truncate_sql q 70) _
        (mem_joinSep_contains "\n" _ _
          (List.mem_map_of_mem (fun x => "      → " ++ truncate_sql x 70) hq))
        (strContains_self_right _ _)
  · intro h1 h2
    have hn1 : ¬ (t ≤ p.count) := by omega
    refine ⟨by simp [checkN1, hn1, h1], ?_⟩
    unfold n1WarningMsg
    exact strContains_append_right _ _ _ (strContains_append_right _ _ _
      (strContains_append_right _ _ _ (strContains_append_right _ _ _
        (strContains_append_right _ _ _ (strContains_self_right _ _)))))
  · intro h1 h2
    have hn1 : ¬ (t ≤ p.count) := by
      have := Nat.mul_le_mul_left 8 (le_refl t)
      unfold warnThreshold at h2
      omega
    have hn2 : ¬ (warnThreshold t ≤ p.count) := by omega
    refine ⟨by simp [checkN1, hn1, hn2, h1], ?_⟩
    unfold n1NoticeMsg
    exact strContains_append_right _ _ _ (strContains_append_right _ _ _
      (strContains_self_right _ _))
  · intro h1 h2 h3
    have hn1 : ¬ (t ≤ p.count) := by omega
    have hn2 : ¬ (warnThreshold t ≤ p.count) := by omega
    have hn3 : ¬ (noticeThreshold t ≤ p.count) := by omega
    simp [checkN1, hn1, hn2, hn3]

/-- Witness for C1 at the spec's concrete scenario, threshold 10:
count 10 gives exactly one failure (not a warning); count 8 gives exactly
one warning containing `"8"`; count 5 gives exactly one notice-style
warning containing `"5"`. -/
theorem c1_verdict_tiers_witness :
    (checkN1 10 [⟨"SELECT * FROM t WHERE id = ?", 10, ["a", "b", "c"]⟩] =
      ([n1FailureMsg 10 ⟨"SELECT * FROM t WHERE id = ?", 10, ["a", "b", "c"]⟩], [])) ∧
    (checkN1 10 [⟨"SELECT * FROM t WHERE id = ?", 8, ["a", "b", "c"]⟩] =
      ([], [n1WarningMsg 10 ⟨"SELECT * FROM t WHERE id = ?", 8, ["a", "b", "c"]⟩]) ∧
      toString (8 : Nat) = "8" ∧
      strContains (n1WarningMsg 10 ⟨"SELECT * FROM t WHERE id = ?", 8, ["a", "b", "c"]⟩)
        (toString (8 : Nat))) ∧
    (checkN1 10 [⟨"SELECT * FROM t WHERE id = ?", 5, ["a", "b", "c"]⟩] =
      ([], [n1NoticeMsg ⟨"SELECT * FROM t WHERE id = ?", 5, ["a", "b", "c"]⟩]) ∧
      toString (5 : Nat) = "5" ∧
      strContains (n1NoticeMsg ⟨"SELECT * FROM t WHERE id = ?", 5, ["a", "b", "c"]⟩)
        (toString (5 : Nat))) := by
  refine ⟨?_, ⟨?_, by decide, ?_⟩, ⟨?_, by decide, ?_⟩⟩
  · exact ((c1_verdict_tiers 10 ⟨"SELECT * FROM t WHERE id = ?", 10, ["a", "b", "c"]⟩
      []).2.1 (by decide)).1
  · exact ((c1_verdict_tiers 10 ⟨"SELECT * FROM t WHERE id = ?", 8, ["a", "b", "c"]⟩
      []).2.2.1 (by decide) (by decide)).1
  · exact ((c1_verdict_tiers 10 ⟨"SELECT * FROM t WHERE id = ?", 8, ["a", "b", "c"]⟩
      []).2.2.1 (by decide) (by decide)).2
  · exact ((c1_verdict_tiers 10 ⟨"SELECT * FROM t WHERE id = ?", 5, ["a", "b", "c"]⟩
      []).2.2.2.1 (by decide) (by decide)).1
  · exact ((c1_verdict_tiers 10 ⟨"SELECT * FROM t WHERE id = ?", 5, ["a", "b", "c"]⟩
      []).2.2.2.1 (by decide) (by decide)).2

/-! ## C4: literal-free queries are unchanged -/

theorem uuidSub_id_of_noQuote (l : List Char) (h : ∀ c ∈ l, c ≠ squote) :
    uuidSub l = l := by
  induction l with
  | nil => rfl
  | cons c cs ih =>
    rw [uuidSub_cons]
    have hc : ¬ (c = squote) := h c (List.mem_cons_self c cs)
    rw [if_neg (by simp [hc]), ih (fun x hx => h x (List.mem_cons_of_mem c hx))]

theorem strSub_id_of_noQuote (l : List Char) (h : ∀ c ∈ l, c ≠ squote) :
    strSub l = l := by
  induction l with
  | nil => rfl
  | cons c cs ih =>
    rw [strSub_cons]
    have hc : ¬ (c = squote) := h c (List.mem_cons_self c cs)
    rw [if_neg hc, ih (fun x hx => h x (List.mem_cons_of_mem c hx))]

theorem numSub_id_of_no_int (pw : Bool) (l : List Char) (h : hasIntLit pw l = false) :
    numSub pw l = l := by
  match l with
  | [] => rfl
  | c :: cs =>
    rw [numSub_cons]
    rw [hasIntLit_cons] at h
    by_cases hc : (!pw && c.isDigit) = true
    · rw [if_pos hc] at h ⊢
      by_cases hb : boundaryAfter ((c :: cs).dropWhile Char.isDigit) = true
      · rw [if_pos hb] at h; exact absurd h (by simp)
      · rw [if_neg hb] at h ⊢
        rw [numSub_id_of_no_int true _ h]
        exact List.takeWhile_append_dropWhile Char.isDigit (c :: cs)
    · rw [if_neg hc] at h ⊢
      rw [numSub_id_of_no_int (isWordChar c) cs h]
termination_by l.length
decreasing_by
  · have hdc : c.isDigit = true := (Bool.and_eq_true_iff.mp hc).2
    rw [List.dropWhile_cons_of_pos hdc]
    have := length_dropWhile_le Char.isDigit cs
    simp only [List.length_cons]
    omega
  · simp

theorem inSub_id_of_no_clause (l : List Char) (h : hasInClause l = false) :
    inSub l = l := by
  induction l with
  | nil => rfl
  | cons c cs ih =>
    unfold hasInClause at h
    rw [Bool.or_eq_false_iff] at h
    have hm : matchIn (c :: cs) = none := by
      cases hmm : matchIn (c :: cs)
      · rfl
      · rw [hmm] at h; simp at h
    rw [inSub_cons_nomatch c cs hm, ih h.2]

/-- C4 counterexample: the claim promises that a query with no quoted
strings, no UUIDs and no standalone integers is returned unchanged, but the
fourth pass rewrites any `IN (...)` clause regardless of literal content:
`"SELECT a FROM t WHERE x IN (y)"` contains no literal value and is still
altered (to `... IN (?)`), and the whitespace/identifier inside the matched
IN span is not preserved. -/
theorem c4_counterexample :
    noQuote "SELECT a FROM t WHERE x IN (y)" = true ∧
    hasIntLit false "SELECT a FROM t WHERE x IN (y)".data = false ∧
    normalize_query "SELECT a FROM t WHERE x IN (y)" ≠ "SELECT a FROM t WHERE x IN (y)" :=
  ⟨by decide, by decide, by decide⟩

/-- C4 (amended): the empty string normalizes to the empty string, and every
query string containing no single-quote character (hence no quoted string or
UUID literal), no standalone integer, and no `IN (...)` clause is returned
by `normalize_query` completely unchanged — in particular its identifiers,
keywords, punctuation and whitespace are never altered.  (The unamended
claim fails only because an `IN (...)` clause is rewritten even when its
content is not a literal; see the counterexample.) -/
theorem c4_no_literal_unchanged (s : String) (hq : noQuote s = true)
    (hi : hasIntLit false s.data = false) (hin : hasInClause s.data = false) :
    normalize_query "" = "" ∧ normalize_query s = s := by
  refine ⟨rfl, ?_⟩
  have hq' : ∀ c ∈ s.data, c ≠ squote := by
    intro c hc
    have := List.all_eq_true.mp hq c hc
    simpa using this
  show (⟨normalizeChars s.data⟩ : String) = s
  unfold normalizeChars
  rw [uuidSub_id_of_noQuote _ hq', strSub_id_of_noQuote _ hq',
    numSub_id_of_no_int false _ hi, inSub_id_of_no_clause _ hin]

/-- Witness for C4 at a concrete literal-free query. -/
theorem c4_no_literal_unchanged_witness :
    noQuote "SELECT name, email FROM users ORDER BY name" = true ∧
    hasIntLit false "SELECT name, email FROM users ORDER BY name".data = false ∧
    hasInClause "SELECT name, email FROM users ORDER BY name".data = false ∧
    (normalize_query "" = "" ∧
      normalize_query "SELECT name, email FROM users ORDER BY name" =
        "SELECT name, email FROM users ORDER BY name") :=
  ⟨by decide, by decide, by decide,
    c4_no_literal_unchanged "SELECT name, email FROM users ORDER BY name"
      (by decide) (by decide) (by decide)⟩

/-! ## C2: grouping lemmas -/

theorem valOf_upsert (acc : List (String × List String)) (key q k : String) :
    valOf (upsert acc key q) k = if key = k then valOf acc k ++ [q] else valOf acc k := by
  induction acc with
  | nil =>
    by_cases hk : key = k
    · simp [upsert, valOf, hk]
    · simp [upsert, valOf, hk]
  | cons kv rest ih =>
    obtain ⟨k0, v0⟩ := kv
    by_cases h0 : k0 = key
    · subst h0
      by_cases hk : k0 = k
      · subst hk
        simp [upsert, valOf]
      · simp [upsert, valOf, hk]
    · by_cases hk : k0 = k
      · subst hk
        have : ¬ (key = k0) := fun he => h0 he.symm
        simp [upsert, valOf, h0, this]
      · simp [upsert, valOf, h0, hk, ih]

theorem groupQueries_valOf (qs : List String) :
    ∀ (acc : List (String × List String)) (k : String),
      valOf (groupQueries qs acc) k =
        valOf acc k ++ qs.filter (fun q => normalize_query q == k) := by
  induction qs with
  | nil => intro acc k; simp [groupQueries]
  | cons q qs ih =>
    intro acc k
    show valOf (groupQueries qs (upsert acc (normalize_query q) q)) k = _
    rw [ih (upsert acc (normalize_query q) q) k, valOf_upsert]
    by_cases hk : normalize_query q = k
    · rw [if_pos hk]
      have : (normalize_query q == k) = true := beq_iff_eq.mpr hk
      simp [List.filter_cons, this]
    · rw [if_neg hk]
      have : (normalize_query q == k) = false := by
        simpa using hk
      simp [List.filter_cons, this]

theorem upsert_keys (acc : List (String × List String)) (key q : String) :
    (upsert acc key q).map Prod.fst =
      if key ∈ acc.map Prod.fst then acc.map Prod.fst
      else acc.map Prod.fst ++ [key] := by
  induction acc with
  | nil => simp [upsert]
  | cons kv rest ih =>
    obtain ⟨k0, v0⟩ := kv
    by_cases h0 : k0 = key
    · subst h0
      simp [upsert]
    · have h0' : ¬ (key = k0) := fun he => h0 he.symm
      by_cases hm : key ∈ rest.map Prod.fst
      · simp [upsert, h0, ih, hm, h0']
      · simp [upsert, h0, ih, hm, h0']

theorem groupQueries_keys_nodup (qs : List String) :
    ∀ acc : List (String × List String),
      (acc.map Prod.fst).Nodup → ((groupQueries qs acc).map Prod.fst).Nodup := by
  induction qs with
  | nil => intro acc h; exact h
  | cons q qs ih =>
    intro acc h
    show ((groupQueries qs (upsert acc (normalize_query q) q)).map Prod.fst).Nodup
    apply ih
    rw [upsert_keys]
    by_cases hm : normalize_query q ∈ acc.map Prod.fst
    · rw [if_pos hm]; exact h
    · rw [if_neg hm]
      simp [List.nodup_append, h, hm]

theorem valOf_eq_of_mem (groups : List (String × List String)) (k : String)
    (v : List String) (hmem : (k, v) ∈ groups)
    (hnd : (groups.map Prod.fst).Nodup) : valOf groups k = v := by
  induction groups with
  | nil => simp at hmem
  | cons kv rest ih =>
    obtain ⟨k0, v0⟩ := kv
    rw [List.map_cons, List.nodup_cons] at hnd
    rcases List.mem_cons.mp hmem with h | h
    · injection h with h1 h2
      subst h1; subst h2
      simp [valOf]
    · have hk0 : k0 ≠ k := by
        intro he
        subst he
        exact hnd.1 (List.mem_map.mpr ⟨(k0, v), h, rfl⟩)
      have : valOf rest k = v := ih h hnd.2
      simp [valOf, hk0, this]

theorem mem_of_valOf_ne (groups : List (String × List String)) (k : String)
    (h : valOf groups k ≠ []) : (k, valOf groups k) ∈ groups := by
  induction groups with
  | nil => simp [valOf] at h
  | cons kv rest ih =>
    obtain ⟨k0, v0⟩ := kv
    by_cases hk : k0 = k
    · subst hk
      simp [valOf]
    · rw [valOf, if_neg hk] at h ⊢
      exact List.mem_cons_of_mem _ (ih h)

theorem mem_patternsOf (groups : List (String × List String)) (p : N1Pattern) :
    p ∈ patternsOf groups ↔
      ∃ kv ∈ groups, 3 ≤ kv.2.length ∧
        p = ⟨kv.1, kv.2.length, kv.2.take 3⟩ := by
  unfold patternsOf
  rw [List.mem_filterMap]
  constructor
  · rintro ⟨kv, hkv, hf⟩
    by_cases h3 : 3 ≤ kv.2.length
    · rw [if_pos h3] at hf
      exact ⟨kv, hkv, h3, (Option.some.injEq .. ▸ hf).symm⟩
    · rw [if_neg h3] at hf; simp at hf
  · rintro ⟨kv, hkv, h3, hp⟩
    exact ⟨kv, hkv, by rw [if_pos h3, hp]⟩

/-! ## C2: first-seen key order -/

theorem newKeys_nil (s : List String) : newKeys [] s = [] := rfl

theorem newKeys_cons (q : String) (qs s : List String) :
    newKeys (q :: qs) s =
      if normalize_query q ∈ s then newKeys qs s
      else normalize_query q :: newKeys qs (normalize_query q :: s) := rfl

theorem newKeys_congr (qs : List String) :
    ∀ s1 s2 : List String, (∀ x, x ∈ s1 ↔ x ∈ s2) →
      newKeys qs s1 = newKeys qs s2 := by
  induction qs with
  | nil => intro s1 s2 h; rfl
  | cons q qs ih =>
    intro s1 s2 h
    rw [newKeys_cons, newKeys_cons]
    by_cases hm : normalize_query q ∈ s1
    · rw [if_pos hm, if_pos ((h _).mp hm)]
      exact ih s1 s2 h
    · rw [if_neg hm, if_neg (fun hx => hm ((h _).mpr hx))]
      rw [ih (normalize_query q :: s1) (normalize_query q :: s2) (by
        intro x
        simp only [List.mem_cons]
        exact or_congr Iff.rfl (h x))]

theorem groupQueries_keys (qs : List String) :
    ∀ acc : List (String × List String),
      (groupQueries qs acc).map Prod.fst =
        acc.map Prod.fst ++ newKeys qs (acc.map Prod.fst) := by
  induction qs with
  | nil => intro acc; simp [groupQueries, newKeys_nil]
  | cons q qs ih =>
    intro acc
    show (groupQueries qs (upsert acc (normalize_query q) q)).map Prod.fst = _
    rw [ih, upsert_keys, newKeys_cons]
    by_cases hm : normalize_query q ∈ acc.map Prod.fst
    · rw [if_pos hm, if_pos hm]
    · rw [if_neg hm, if_neg hm]
      rw [newKeys_congr qs (acc.map Prod.fst ++ [normalize_query q])
        (normalize_query q :: acc.map Prod.fst) (by intro x; simp [or_comm])]
      simp

theorem newKeys_not_mem_seen (qs : List String) :
    ∀ (s : List String) (b : String), b ∈ newKeys qs s → b ∉ s := by
  induction qs with
  | nil => intro s b h; simp [newKeys_nil] at h
  | cons q qs ih =>
    intro s b h
    rw [newKeys_cons] at h
    by_cases hm : normalize_query q ∈ s
    · rw [if_pos hm] at h
      exact ih s b h
    · rw [if_neg hm] at h
      rcases List.mem_cons.mp h with he | ht
      · subst he; exact hm
      · intro hbs
        exact ih _ b ht (List.mem_cons_of_mem _ hbs)

theorem posIn_cons (k q : String) (qs : List String) :
    posIn k (q :: qs) =
      if normalize_query q = k then 0 else posIn k qs + 1 := by
  unfold posIn
  rw [List.findIdx_cons]
  by_cases h : normalize_query q = k
  · rw [if_pos h]
    have : (normalize_query q == k) = true := beq_iff_eq.mpr h
    simp [this]
  · rw [if_neg h]
    have : (normalize_query q == k) = false := by simpa using h
    simp [this]

theorem newKeys_pairwise_posIn (qs : List String) :
    ∀ s : List String,
      (newKeys qs s).Pairwise (fun a b => posIn a qs < posIn b qs) := by
  induction qs with
  | nil => intro s; simp [newKeys_nil]
  | cons q qs ih =>
    intro s
    rw [newKeys_cons]
    by_cases hm : normalize_query q ∈ s
    · rw [if_pos hm]
      refine (ih s).imp_of_mem ?_
      intro a b ha hb hlt
      have hna : a ≠ normalize_query q := by
        intro he; subst he; exact (newKeys_not_mem_seen qs s _ ha) hm
      have hnb : b ≠ normalize_query q := by
        intro he; subst he; exact (newKeys_not_mem_seen qs s _ hb) hm
      rw [posIn_cons, posIn_cons, if_neg (fun he => hna he.symm),
        if_neg (fun he => hnb he.symm)]
      omega
    · rw [if_neg hm]
      rw [List.pairwise_cons]
      constructor
      · intro b hb
        have hnb : b ≠ normalize_query q := by
          intro he
          subst he
          exact (newKeys_not_mem_seen qs _ _ hb) (List.mem_cons_self _ _)
        rw [posIn_cons, posIn_cons, if_pos rfl, if_neg (fun he => hnb he.symm)]
        omega
      · refine (ih (normalize_query q :: s)).imp_of_mem ?_
        intro a b ha hb hlt
        have hna : a ≠ normalize_query q := by
          intro he
          subst he
          exact (newKeys_not_mem_seen qs _ _ ha) (List.mem_cons_self _ _)
        have hnb : b ≠ normalize_query q := by
          intro he
          subst he
          exact (newKeys_not_mem_seen qs _ _ hb) (List.mem_cons_self _ _)
        rw [posIn_cons, posIn_cons, if_neg (fun he => hna he.symm),
          if_neg (fun he => hnb he.symm)]
        omega

theorem pairwise_patternsOf (groups : List (String × List String))
    (R : String → String → Prop)
    (h : groups.Pairwise (fun a b => R a.1 b.1)) :
    (patternsOf groups).Pairwise
      (fun p q => R p.normalized_query q.normalized_query) := by
  induction groups with
  | nil => simp [patternsOf]
  | cons kv rest ih =>
    rw [List.pairwise_cons] at h
    unfold patternsOf
    rw [List.filterMap_cons]
    by_cases h3 : 3 ≤ kv.2.length
    · rw [if_pos h3]
      rw [List.pairwise_cons]
      constructor
      · intro p hp
        rcases (mem_patternsOf rest p).mp hp with ⟨kv2, hkv2, _, hpe⟩
        subst hpe
        exact h.1 kv2 hkv2
      · exact ih h.2
    · rw [if_neg h3]
      exact ih h.2

/-! ## C2: stable descending sort -/

theorem insertDesc_perm (x : N1Pattern) (l : List N1Pattern) :
    List.Perm (insertDesc x l) (x :: l) := by
  induction l with
  | nil => exact List.Perm.refl _
  | cons q qs ih =>
    unfold insertDesc
    by_cases h : q.count ≤ x.count
    · rw [if_pos h]
    · rw [if_neg h]
      exact (ih.cons q).trans (List.Perm.swap x q qs)

theorem sortByCountDesc_perm (l : List N1Pattern) :
    List.Perm (sortByCountDesc l) l := by
  induction l with
  | nil => exact List.Perm.refl _
  | cons x xs ih =>
    exact (insertDesc_perm x (sortByCountDesc xs)).trans (ih.cons x)

theorem insertDesc_sorted (x : N1Pattern) (l : List N1Pattern)
    (h : l.Pairwise (fun a b => b.count ≤ a.count)) :
    (insertDesc x l).Pairwise (fun a b => b.count ≤ a.count) := by
  induction l with
  | nil => simp [insertDesc]
  | cons q qs ih =>
    rw [List.pairwise_cons] at h
    unfold insertDesc
    by_cases hc : q.count ≤ x.count
    · rw [if_pos hc]
      rw [List.pairwise_cons]
      refine ⟨?_, List.pairwise_cons.mpr h⟩
      intro b hb
      rcases List.mem_cons.mp hb with he | ht
      · subst he; exact hc
      · exact le_trans (h.1 b ht) hc
    · rw [if_neg hc]
      rw [List.pairwise_cons]
      constructor
      · intro b hb
        have := (insertDesc_perm x qs).mem_iff.mp hb
        rcases List.mem_cons.mp this with he | ht
        · subst he; omega
        · exact h.1 b ht
      · exact ih h.2

theorem sortByCountDesc_sorted (l : List N1Pattern) :
    (sortByCountDesc l).Pairwise (fun a b => b.count ≤ a.count) := by
  induction l with
  | nil => simp [sortByCountDesc]
  | cons x xs ih => exact insertDesc_sorted x _ ih

theorem insertDesc_filter (x : N1Pattern) (l : List N1Pattern) (c : Nat) :
    (insertDesc x l).filter (fun p => p.count == c) =
      if x.count = c then x :: l.filter (fun p => p.count == c)
      else l.filter (fun p => p.count == c) := by
  induction l with
  | nil =>
    by_cases hx : x.count = c
    · have hxb : (x.count == c) = true := beq_iff_eq.mpr hx
      simp [insertDesc, List.filter_cons, hxb, hx]
    · have hxb : (x.count == c) = false := by simpa using hx
      simp [insertDesc, List.filter_cons, hxb, hx]
  | cons q qs ih =>
    unfold insertDesc
    by_cases hc : q.count ≤ x.count
    · rw [if_pos hc]
      by_cases hx : x.count = c
      · have hxb : (x.count == c) = true := beq_iff_eq.mpr hx
        simp [List.filter_cons, hxb, hx]
      · have hxb : (x.count == c) = false := by simpa using hx
        simp [List.filter_cons, hxb, hx]
    · rw [if_neg hc]
      rw [List.filter_cons, List.filter_cons, ih]
      by_cases hx : x.count = c
      · have hq : (q.count == c) = false := by
          have : ¬ (q.count = c) := by omega
          simpa using this
        simp [hq, hx]
      · by_cases hqc : q.count = c
        · have hqb : (q.count == c) = true := beq_iff_eq.mpr hqc
          simp [hqb, hx]
        · have hqb : (q.count == c) = false := by simpa using hqc
          simp [hqb, hx]

theorem sortByCountDesc_filter (l : List N1Pattern) (c : Nat) :
    (sortByCountDesc l).filter (fun p => p.count == c) =
      l.filter (fun p => p.count == c) := by
  induction l with
  | nil => rfl
  | cons x xs ih =>
    show (insertDesc x (sortByCountDesc xs)).filter _ = _
    rw [insertDesc_filter]
    by_cases hx : x.count = c
    · have hxb : (x.count == c) = true := beq_iff_eq.mpr hx
      rw [if_pos hx, ih, List.filter_cons]
      simp [hxb]
    · have hxb : (x.count == c) = false := by simpa using hx
      rw [if_neg hx, ih, List.filter_cons]
      simp [hxb]

/-! ## C2: the detector's contract -/

/-- C2: for every ordered list of raw queries, `detect_n_plus_one` returns
only patterns with at least 3 members (the fixed repetition floor), each
pattern's count equals the number of input queries whose normalized form
equals its shape and its samples are the first three such queries in input
order; the result is sorted by count descending, and stable: patterns of
equal count appear exactly as in the pre-sort group list, whose groups are
ordered by the position of the first query of each shape; an input with no
qualifying group yields `[]`, never an error (the embedding is a total
function). -/
theorem c2_detect_spec (qs : List String) :
    (∀ p ∈ detect_n_plus_one qs,
        3 ≤ p.count ∧
        p.count = (qs.filter (fun q => normalize_query q == p.normalized_query)).length ∧
        p.sample_queries =
          (qs.filter (fun q => normalize_query q == p.normalized_query)).take 3) ∧
    (detect_n_plus_one qs).Pairwise (fun a b => b.count ≤ a.count) ∧
    (∀ c : Nat, (detect_n_plus_one qs).filter (fun p => p.count == c) =
        (prePatterns qs).filter (fun p => p.count == c)) ∧
    (prePatterns qs).Pairwise
      (fun p1 p2 => posIn p1.normalized_query qs < posIn p2.normalized_query qs) ∧
    (detect_n_plus_one qs = [] ↔
      ∀ q ∈ qs, (qs.filter (fun x => normalize_query x == normalize_query q)).length < 3) := by
  have hnodup : ((groupQueries qs []).map Prod.fst).Nodup :=
    groupQueries_keys_nodup qs [] (by simp)
  have hval : ∀ k, valOf (groupQueries qs []) k =
      qs.filter (fun q => normalize_query q == k) := by
    intro k
    simpa [valOf] using groupQueries_valOf qs [] k
  have hmem_char : ∀ p ∈ prePatterns qs,
      3 ≤ p.count ∧
      p.count = (qs.filter (fun q => normalize_query q == p.normalized_query)).length ∧
      p.sample_queries =
        (qs.filter (fun q => normalize_query q == p.normalized_query)).take 3 := by
    intro p hp
    rcases (mem_patternsOf _ p).mp hp with ⟨kv, hkv, h3, hpe⟩
    have hmemkv : (kv.1, kv.2) ∈ groupQueries qs [] := by
      simpa using hkv
    have hv : valOf (groupQueries qs []) kv.1 = kv.2 :=
      valOf_eq_of_mem _ _ _ hmemkv hnodup
    have hfe : kv.2 = qs.filter (fun q => normalize_query q == kv.1) := by
      rw [← hval kv.1, hv]
    subst hpe
    refine ⟨h3, ?_, ?_⟩
    · show kv.2.length = _
      rw [hfe]
    · show kv.2.take 3 = _
      rw [hfe]
  refine ⟨?_, ?_, ?_, ?_, ?_⟩
  · intro p hp
    exact hmem_char p ((sortByCountDesc_perm _).mem_iff.mp hp)
  · exact sortByCountDesc_sorted _
  · intro c
    exact sortByCountDesc_filter _ c
  · have hkeys : (groupQueries qs []).map Prod.fst = newKeys qs [] := by
      simpa using groupQueries_keys qs []
    have hkp : ((groupQueries qs []).map Prod.fst).Pairwise
        (fun a b => posIn a qs < posIn b qs) := by
      rw [hkeys]
      exact newKeys_pairwise_posIn qs []
    exact pairwise_patternsOf _ _ (List.pairwise_map.mp hkp)
  · constructor
    · intro hempty q hq
      by_contra hge
      push_neg at hge
      have hvk : valOf (groupQueries qs []) (normalize_query q) =
          qs.filter (fun x => normalize_query x == normalize_query q) :=
        hval (normalize_query q)
      have hne : valOf (groupQueries qs []) (normalize_query q) ≠ [] := by
        rw [hvk]
        intro h0
        rw [h0] at hge
        simp at hge
      have hm := mem_of_valOf_ne _ _ hne
      have hp : (⟨normalize_query q,
          (valOf (groupQueries qs []) (normalize_query q)).length,
          (valOf (groupQueries qs []) (normalize_query q)).take 3⟩ : N1Pattern) ∈
          patternsOf (groupQueries qs []) := by
        refine (mem_patternsOf _ _).mpr
          ⟨(normalize_query q, valOf (groupQueries qs []) (normalize_query q)), hm, ?_, rfl⟩
        show 3 ≤ (valOf (groupQueries qs []) (normalize_query q)).length
        rw [hvk]
        exact hge
      have hdet := (sortByCountDesc_perm (prePatterns qs)).mem_iff.mpr hp
      rw [show sortByCountDesc (prePatterns qs) = detect_n_plus_one qs from rfl,
        hempty] at hdet
      simp at hdet
    · intro hall
      by_contra hne
      rcases List.exists_mem_of_ne_nil _ hne with ⟨p, hp⟩
      have hchar := hmem_char p ((sortByCountDesc_perm _).mem_iff.mp hp)
      have hlen : 3 ≤ (qs.filter (fun x => normalize_query x == p.normalized_query)).length := by
        have := hchar.1
        rw [hchar.2.1] at this
        exact this
      have hfne : qs.filter (fun x => normalize_query x == p.normalized_query) ≠ [] := by
        intro h0
        rw [h0] at hlen
        simp at hlen
      rcases List.exists_mem_of_ne_nil _ hfne with ⟨x, hx⟩
      have hx2 := List.mem_filter.mp hx
      have hxe : normalize_query x = p.normalized_query := beq_iff_eq.mp hx2.2
      have hsmall := hall x hx2.1
      rw [hxe] at hsmall
      omega

/-- Witness for C2 at the spec's three-query scenario: detect returns the
single pattern of count 3 with shape containing `id = ?` and the three raw
queries as samples. -/
theorem c2_detect_spec_witness :
    ((⟨"SELECT * FROM t WHERE id = ?", 3,
        ["SELECT * FROM t WHERE id = 1", "SELECT * FROM t WHERE id = 2",
         "SELECT * FROM t WHERE id = 3"]⟩ : N1Pattern) ∈
      detect_n_plus_one
        ["SELECT * FROM t WHERE id = 1", "SELECT * FROM t WHERE id = 2",
         "SELECT * FROM t WHERE id = 3"]) ∧
    (3 ≤ (⟨"SELECT * FROM t WHERE id = ?", 3,
        ["SELECT * FROM t WHERE id = 1", "SELECT * FROM t WHERE id = 2",
         "SELECT * FROM t WHERE id = 3"]⟩ : N1Pattern).count ∧
      (⟨"SELECT * FROM t WHERE id = ?", 3,
        ["SELECT * FROM t WHERE id = 1", "SELECT * FROM t WHERE id = 2",
         "SELECT * FROM t WHERE id = 3"]⟩ : N1Pattern).count =
        (["SELECT * FROM t WHERE id = 1", "SELECT * FROM t WHERE id = 2",
          "SELECT * FROM t WHERE id = 3"].filter
          (fun q => normalize_query q ==
            (⟨"SELECT * FROM t WHERE id = ?", 3,
              ["SELECT * FROM t WHERE id = 1", "SELECT * FROM t WHERE id = 2",
               "SELECT * FROM t WHERE id = 3"]⟩ : N1Pattern).normalized_query)).length ∧
      (⟨"SELECT * FROM t WHERE id = ?", 3,
        ["SELECT * FROM t WHERE id = 1", "SELECT * FROM t WHERE id = 2",
         "SELECT * FROM t WHERE id = 3"]⟩ : N1Pattern).sample_queries =
        (["SELECT * FROM t WHERE id = 1", "SELECT * FROM t WHERE id = 2",
          "SELECT * FROM t WHERE id = 3"].filter
          (fun q => normalize_query q ==
            (⟨"SELECT * FROM t WHERE id = ?", 3,
              ["SELECT * FROM t WHERE id = 1", "SELECT * FROM t WHERE id = 2",
               "SELECT * FROM t WHERE id = 3"]⟩ : N1Pattern).normalized_query)).take 3) :=
  ⟨by decide,
    (c2_detect_spec
      ["SELECT * FROM t WHERE id = 1", "SELECT * FROM t WHERE id = 2",
       "SELECT * FROM t WHERE id = 3"]).1
      ⟨"SELECT * FROM t WHERE id = ?", 3,
        ["SELECT * FROM t WHERE id = 1", "SELECT * FROM t WHERE id = 2",
         "SELECT * FROM t WHERE id = 3"]⟩ (by decide)⟩

/-! ## C7 and C9: report-rendering lemmas -/

theorem warnSection_mem (c : Colors) (r : MonitorResult) (w : String) (ln : List Char)
    (hw : w ∈ r.warnings) (hln : ln ∈ splitNl w.data) :
    ("   " ++ c.yellow ++ "•" ++ c.reset ++ " " ++ (⟨stripWarnLine ln⟩ : String)) ∈
      warnSection c r := by
  unfold warnSection
  rw [if_neg (by simp [List.isEmpty_iff, List.ne_nil_of_mem hw])]
  exact List.mem_cons_of_mem _
    (List.mem_flatMap.mpr ⟨w, hw, List.mem_map.mpr ⟨ln, hln, rfl⟩⟩)

theorem failSection_mem (c : Colors) (r : MonitorResult) (f : String) (ln : List Char)
    (hf : f ∈ r.failures) (hln : ln ∈ splitNl f.data) :
    ("   " ++ c.red ++ "✗" ++ c.reset ++ " " ++ (⟨stripFailLine ln⟩ : String)) ∈
      failSection c r := by
  unfold failSection
  rw [if_neg (by simp [List.isEmpty_iff, List.ne_nil_of_mem hf])]
  exact List.mem_cons_of_mem _
    (List.mem_flatMap.mpr ⟨f, hf, List.mem_map.mpr ⟨ln, hln, rfl⟩⟩)

theorem patternSection_mem (c : Colors) (r : MonitorResult) (p : N1Pattern)
    (hp : p ∈ r.n_plus_one_patterns) :
    patternLine c r.thresholds.n_plus_one_threshold p ∈ patternSection c r := by
  unfold patternSection
  rw [if_neg (by simp [List.isEmpty_iff, List.ne_nil_of_mem hp])]
  exact List.mem_cons_of_mem _
    (List.mem_flatMap.mpr ⟨p, hp, List.mem_cons_self _ _⟩)

theorem report_contains_line (c : Colors) (r : MonitorResult) (ln : String)
    (h : ln ∈ reportLines c r) : strContains (format_report c r) ln :=
  mem_joinSep_contains "\n" _ _ h

/-- C7 counterexample: the renderer splits each failure message on newlines,
strips each line and re-indents it with a bullet, so a multi-line failure
message is not a literal substring of the rendered report.  The
`_check_thresholds` N+1 failure messages are multi-line, so real sessions
produce such messages. -/
theorem c7_counterexample :
    "XQ\nZQ" ∈ (⟨0, 0, [], [], ⟨100, 10, 10⟩, false, ["XQ\nZQ"], [], "", ""⟩ :
      MonitorResult).failures ∧
    ¬ strContains
      (format_report (mkColors true)
        (⟨0, 0, [], [], ⟨100, 10, 10⟩, false, ["XQ\nZQ"], [], "", ""⟩ : MonitorResult))
      "XQ\nZQ" :=
  ⟨by decide, by decide⟩

/-- C7 (amended): rendering never loses message *content*, but multi-line
messages are re-formatted: for every `MonitorResult`, every
newline-separated line of every warning and failure message — after the
renderer's own emoji removal and whitespace stripping — appears as a
literal substring of the rendered text report.  (The unamended whole-message
round-trip fails for multi-line messages; see the counterexample.) -/
theorem c7_report_lines_roundtrip (cd : Bool) (r : MonitorResult) :
    (∀ w ∈ r.warnings, ∀ ln ∈ splitNl w.data,
      strContains (format_report (mkColors cd) r) (⟨stripWarnLine ln⟩ : String)) ∧
    (∀ f ∈ r.failures, ∀ ln ∈ splitNl f.data,
      strContains (format_report (mkColors cd) r) (⟨stripFailLine ln⟩ : String)) := by
  constructor
  · intro w hw ln hln
    have hmem := warnSection_mem (mkColors cd) r w ln hw hln
    have hlines : ("   " ++ (mkColors cd).yellow ++ "•" ++ (mkColors cd).reset ++ " " ++
        (⟨stripWarnLine ln⟩ : String)) ∈ reportLines (mkColors cd) r := by
      unfold reportLines
      simp only [List.mem_append]
      tauto
    exact strContains_of_trans _ _ _
      (report_contains_line (mkColors cd) r _ hlines)
      (strContains_self_right _ _)
  · intro f hf ln hln
    have hmem := failSection_mem (mkColors cd) r f ln hf hln
    have hlines : ("   " ++ (mkColors cd).red ++ "✗" ++ (mkColors cd).reset ++ " " ++
        (⟨stripFailLine ln⟩ : String)) ∈ reportLines (mkColors cd) r := by
      unfold reportLines
      simp only [List.mem_append]
      tauto
    exact strContains_of_trans _ _ _
      (report_contains_line (mkColors cd) r _ hlines)
      (strContains_self_right _ _)

/-- Witness for C7 at a concrete result: the stripped lines of a two-line
failure and of an emoji-prefixed warning appear in the rendered report. -/
theorem c7_report_lines_roundtrip_witness :
    "f1\nf2" ∈ (⟨0, 0, [], [], ⟨100, 10, 10⟩, false, ["f1\nf2"], ["  ⚠️ careful  "],
      "", ""⟩ : MonitorResult).failures ∧
    "f1".data ∈ splitNl ("f1\nf2" : String).data ∧
    strContains
      (format_report (mkColors true)
        (⟨0, 0, [], [], ⟨100, 10, 10⟩, false, ["f1\nf2"], ["  ⚠️ careful  "], "", ""⟩ :
          MonitorResult))
      (⟨stripFailLine ("f1".data)⟩ : String) ∧
    strContains
      (format_report (mkColors true)
        (⟨0, 0, [], [], ⟨100, 10, 10⟩, false, ["f1\nf2"], ["  ⚠️ careful  "], "", ""⟩ :
          MonitorResult))
      (⟨stripWarnLine ("  ⚠️ careful  " : String).data⟩ : String) :=
  ⟨by decide, by decide,
    (c7_report_lines_roundtrip true
      (⟨0, 0, [], [], ⟨100, 10, 10⟩, false, ["f1\nf2"], ["  ⚠️ careful  "], "", ""⟩ :
        MonitorResult)).2 "f1\nf2" (by decide) "f1".data (by decide),
    (c7_report_lines_roundtrip true
      (⟨0, 0, [], [], ⟨100, 10, 10⟩, false, ["f1\nf2"], ["  ⚠️ careful  "], "", ""⟩ :
        MonitorResult)).1 "  ⚠️ careful  " (by decide)
      ("  ⚠️ careful  " : String).data (by decide)⟩

/-- C9: the text report lists every detected pattern regardless of the
notice floor — for each pattern of the result, its full pattern line (with
severity label, count, and 70-column-truncated shape) is a substring of the
rendered report — and `_format_pattern_severity_color` labels it `FAIL` when
`count >= T`, `WARN` when `int(T*0.8) <= count < T`, and `INFO` for every
`count < int(T*0.8)`; in particular a pattern below the verdict engine's
notice floor `max(3, int(T*0.5))`, which produces no failure or warning
message, still appears in the report with the `INFO` label. -/
theorem c9_report_lists_all_patterns (cd : Bool) (r : MonitorResult) (p : N1Pattern)
    (hp : p ∈ r.n_plus_one_patterns) :
    strContains (format_report (mkColors cd) r)
      (patternLine (mkColors cd) r.thresholds.n_plus_one_threshold p) ∧
    (r.thresholds.n_plus_one_threshold ≤ p.count →
      (severityPair (mkColors cd) p.count r.thresholds.n_plus_one_threshold).1 = "FAIL") ∧
    (warnThreshold r.thresholds.n_plus_one_threshold ≤ p.count →
      p.count < r.thresholds.n_plus_one_threshold →
      (severityPair (mkColors cd) p.count r.thresholds.n_plus_one_threshold).1 = "WARN") ∧
    (p.count < warnThreshold r.thresholds.n_plus_one_threshold →
      (severityPair (mkColors cd) p.count r.thresholds.n_plus_one_threshold).1 = "INFO") := by
  refine ⟨?_, ?_, ?_, ?_⟩
  · have hmem := patternSection_mem (mkColors cd) r p hp
    have hlines : patternLine (mkColors cd) r.thresholds.n_plus_one_threshold p ∈
        reportLines (mkColors cd) r := by
      unfold reportLines
      simp only [List.mem_append]
      tauto
    exact report_contains_line (mkColors cd) r _ hlines
  · intro h
    unfold severityPair
    rw [if_pos h]
  · intro h1 h2
    unfold severityPair
    rw [if_neg (by omega), if_pos h1]
  · intro h
    unfold severityPair
    have hwt : warnThreshold r.thresholds.n_plus_one_threshold ≤
        r.thresholds.n_plus_one_threshold := by
      unfold warnThreshold
      omega
    rw [if_neg (by omega), if_neg (by omega)]

/-- Witness for C9: a pattern of count 3 with threshold 10 — below the
notice floor `max(3, int(10*0.5)) = 5`, hence no verdict message — still
appears in the report, labelled `INFO`. -/
theorem c9_report_lists_all_patterns_witness :
    (⟨"SELECT * FROM t WHERE id = ?", 3, ["a"]⟩ : N1Pattern) ∈
      (⟨0, 3, [], [⟨"SELECT * FROM t WHERE id = ?", 3, ["a"]⟩], ⟨100, 10, 10⟩, false,
        [], [], "", ""⟩ : MonitorResult).n_plus_one_patterns ∧
    (3 : Nat) < noticeThreshold 10 ∧
    strContains
      (format_report (mkColors true)
        (⟨0, 3, [], [⟨"SELECT * FROM t WHERE id = ?", 3, ["a"]⟩], ⟨100, 10, 10⟩, false,
          [], [], "", ""⟩ : MonitorResult))
      (patternLine (mkColors true) 10 (⟨"SELECT * FROM t WHERE id = ?", 3, ["a"]⟩ : N1Pattern)) ∧
    (severityPair (mkColors true) 3 10).1 = "INFO" :=
  ⟨by decide, by decide,
    (c9_report_lists_all_patterns true
      (⟨0, 3, [], [⟨"SELECT * FROM t WHERE id = ?", 3, ["a"]⟩], ⟨100, 10, 10⟩, false,
        [], [], "", ""⟩ : MonitorResult)
      (⟨"SELECT * FROM t WHERE id = ?", 3, ["a"]⟩ : N1Pattern) (by decide)).1,
    (c9_report_lists_all_patterns true
      (⟨0, 3, [], [⟨"SELECT * FROM t WHERE id = ?", 3, ["a"]⟩], ⟨100, 10, 10⟩, false,
        [], [], "", ""⟩ : MonitorResult)
      (⟨"SELECT * FROM t WHERE id = ?", 3, ["a"]⟩ : N1Pattern) (by decide)).2.2.2 (by decide)⟩

/-! ## C5: structural lemmas for the IN-clause pass -/

theorem isInChar_elim (x : Char) (h : isInChar x = true) : x = 'I' ∨ x = 'i' := by
  simpa [isInChar] using h

theorem isNChar_not_in (x : Char) (h : isNChar x = true) : isInChar x = false := by
  have : x = 'N' ∨ x = 'n' := by simpa [isNChar] using h
  rcases this with he | he <;> subst he <;> decide

theorem matchIn_none_of_not_in (c : Char) (X : List Char) (h : isInChar c = false) :
    matchIn (c :: X) = none := by
  cases X with
  | nil => rfl
  | cons x xs =>
    simp only [matchIn]
    rw [if_neg (by simp [h])]

theorem matchIn_none_of_second (c d : Char) (X : List Char) (h : isNChar d = false) :
    matchIn (c :: d :: X) = none := by
  simp only [matchIn]
  rw [if_neg (by simp [h])]

theorem matchIn_head_in (l r : List Char) (h : matchIn l = some r) :
    ∃ c cs, l = c :: cs ∧ isInChar c = true := by
  rcases matchIn_decomp _ _ h with ⟨c1, c2, ws, content, heq, hc1, -, -, -, -⟩
  exact ⟨c1, _, heq, hc1⟩

theorem inSub_head_shape (d : Char) (inner : List Char) :
    inSub (d :: inner) = d :: inSub inner ∨
    (isInChar d = true ∧ ∃ Z, inSub (d :: inner) = 'I' :: Z) := by
  cases hm : matchIn (d :: inner) with
  | none => exact Or.inl (inSub_cons_nomatch d inner hm)
  | some r =>
    right
    rcases matchIn_head_in _ _ hm with ⟨c, cs, heq, hc⟩
    injection heq with h1 h2
    subst h1
    refine ⟨hc, 'N' :: ' ' :: '(' :: '?' :: ')' :: inSub r, ?_⟩
    rw [inSub_cons_match d inner r hm]
    rfl

theorem inSub_no_rparen (m : List Char) (h : ')' ∉ m) : inSub m = m := by
  match m with
  | [] => rfl
  | c :: cs =>
    have hm : matchIn (c :: cs) = none := by
      cases hmm : matchIn (c :: cs) with
      | none => rfl
      | some r =>
        rcases matchIn_decomp _ _ hmm with ⟨c1, c2, ws, content, heq, -, -, -, -, -⟩
        exfalso
        apply h
        rw [heq]
        simp
    rw [inSub_cons_nomatch c cs hm,
      inSub_no_rparen cs (fun hx => h (List.mem_cons_of_mem c hx))]
termination_by m.length
decreasing_by simp

theorem dropWhile_inSub_comm (p : Char → Bool) (hpI : p 'I' = false) (hpi : p 'i' = false)
    (m : List Char) : (inSub m).dropWhile p = inSub (m.dropWhile p) := by
  match m with
  | [] => rfl
  | c :: cs =>
    cases hm : matchIn (c :: cs) with
    | some r =>
      have hc : c = 'I' ∨ c = 'i' := by
        rcases matchIn_head_in _ _ hm with ⟨c', cs', heq, hc'⟩
        injection heq with h1 h2
        subst h1
        exact isInChar_elim _ hc'
      have hpc : p c = false := by rcases hc with he | he <;> subst he <;> assumption
      calc (inSub (c :: cs)).dropWhile p
          = ('I' :: ('N' :: ' ' :: '(' :: '?' :: ')' :: inSub r)).dropWhile p := by
            rw [inSub_cons_match c cs r hm]; rfl
        _ = 'I' :: ('N' :: ' ' :: '(' :: '?' :: ')' :: inSub r) := by
            rw [List.dropWhile_cons_of_neg (by simp [hpI])]
        _ = inSub (c :: cs) := by rw [inSub_cons_match c cs r hm]; rfl
        _ = inSub ((c :: cs).dropWhile p) := by
            rw [List.dropWhile_cons_of_neg (by simp [hpc])]
    | none =>
      rw [inSub_cons_nomatch c cs hm]
      by_cases hp : p c = true
      · rw [List.dropWhile_cons_of_pos hp, List.dropWhile_cons_of_pos hp]
        exact dropWhile_inSub_comm p hpI hpi cs
      · rw [List.dropWhile_cons_of_neg (by simpa using hp),
          List.dropWhile_cons_of_neg (by simpa using hp)]
        rw [inSub_cons_nomatch c cs hm]
termination_by m.length
decreasing_by simp

theorem boundaryAfter_inSub (m : List Char) :
    boundaryAfter (inSub m) = boundaryAfter m := by
  cases m with
  | nil => rfl
  | cons c cs =>
    cases hm : matchIn (c :: cs) with
    | some r =>
      have hc : c = 'I' ∨ c = 'i' := by
        rcases matchIn_head_in _ _ hm with ⟨c', cs', heq, hc'⟩
        injection heq with h1 h2
        subst h1
        exact isInChar_elim _ hc'
      rw [inSub_cons_match c cs r hm]
      show boundaryAfter ('I' :: _) = _
      rcases hc with he | he <;> subst he <;> rfl
    | none =>
      rw [inSub_cons_nomatch c cs hm]
      rfl

theorem dropWhile_append_all (p : Char → Bool) (a b : List Char)
    (ha : ∀ x ∈ a, p x = true) : (a ++ b).dropWhile p = b.dropWhile p := by
  induction a with
  | nil => rfl
  | cons x xs ih =>
    rw [List.cons_append, List.dropWhile_cons_of_pos (ha x (List.mem_cons_self x xs))]
    exact ih (fun y hy => ha y (List.mem_cons_of_mem x hy))

/-! ## C5: evaluation of `matchIn` after `IN` -/

theorem matchIn_eval_nilws (c n : Char) (cs' : List Char)
    (hin : isInChar c = true) (hn : isNChar n = true)
    (ha : cs'.dropWhile isSpaceChar = []) : matchIn (c :: n :: cs') = none := by
  simp only [matchIn]
  rw [if_pos (by simp [hin, hn]), ha]

theorem matchIn_eval_noparen (c n : Char) (cs' : List Char) (d : Char) (inner : List Char)
    (hin : isInChar c = true) (hn : isNChar n = true)
    (ha : cs'.dropWhile isSpaceChar = d :: inner) (hd : ¬ (d = '(')) :
    matchIn (c :: n :: cs') = none := by
  simp only [matchIn]
  rw [if_pos (by simp [hin, hn]), ha]
  simp only
  rw [if_neg hd]

theorem matchIn_eval_paren (c n : Char) (cs' : List Char) (inner : List Char)
    (hin : isInChar c = true) (hn : isNChar n = true)
    (ha : cs'.dropWhile isSpaceChar = '(' :: inner) :
    matchIn (c :: n :: cs') =
      (match inner.dropWhile notRParen with
        | _ :: tail =>
          if (inner.takeWhile notRParen).isEmpty then none else some tail
        | [] => none) := by
  simp only [matchIn]
  rw [if_pos (by simp [hin, hn]), ha]
  simp

theorem matchIn_none_inSub (c : Char) (cs : List Char) (h : matchIn (c :: cs) = none) :
    matchIn (c :: inSub cs) = none := by
  by_cases hin : isInChar c = true
  · cases cs with
    | nil => rfl
    | cons n cs' =>
      by_cases hn : isNChar n = true
      · have hmn : matchIn (n :: cs') = none :=
          matchIn_none_of_not_in n cs' (isNChar_not_in n hn)
        rw [inSub_cons_nomatch n cs' hmn]
        have hws : (inSub cs').dropWhile isSpaceChar =
            inSub (cs'.dropWhile isSpaceChar) :=
          dropWhile_inSub_comm isSpaceChar (by decide) (by decide) cs'
        cases ha : cs'.dropWhile isSpaceChar with
        | nil =>
          refine matchIn_eval_nilws c n (inSub cs') hin hn ?_
          rw [hws, ha]
          rfl
        | cons d inner =>
          by_cases hdp : d = '('
          · subst hdp
            have hmp : matchIn ('(' :: inner) = none :=
              matchIn_none_of_not_in '(' inner (by decide)
            have hws2 : (inSub cs').dropWhile isSpaceChar = '(' :: inSub inner := by
              rw [hws, ha, inSub_cons_nomatch _ _ hmp]
            rw [matchIn_eval_paren c n (inSub cs') (inSub inner) hin hn hws2]
            rw [matchIn_eval_paren c n cs' inner hin hn ha] at h
            cases he : inner.dropWhile notRParen with
            | nil =>
              have hnp : ∀ x ∈ inner, notRParen x = true :=
                List.dropWhile_eq_nil_iff.mp he
              have hrp : ')' ∉ inner := by
                intro hx
                have := hnp ')' hx
                simp [notRParen] at this
              rw [inSub_no_rparen inner hrp, he]
            | cons e tail =>
              rw [he] at h
              simp only at h
              by_cases hemp : (inner.takeWhile notRParen).isEmpty = true
              · cases inner with
                | nil => simp at he
                | cons i0 irest =>
                  have hi0 : notRParen i0 = false := by
                    by_contra hcon
                    have hc2 : notRParen i0 = true := by simpa using hcon
                    rw [List.takeWhile_cons_of_pos hc2] at hemp
                    simp at hemp
                  have hi0' : i0 = ')' := by
                    simpa [notRParen] using hi0
                  subst hi0'
                  rw [inSub_cons_nomatch _ _
                    (matchIn_none_of_not_in ')' irest (by decide))]
                  rw [List.dropWhile_cons_of_neg (by simp [notRParen]),
                    List.takeWhile_cons_of_neg (by simp [notRParen])]
                  simp
              · rw [if_neg hemp] at h
                simp at h
          · rcases inSub_head_shape d inner with hsh | ⟨hd_in, Z, hsh⟩
            · refine matchIn_eval_noparen c n (inSub cs') d (inSub inner)
                hin hn ?_ hdp
              rw [hws, ha, hsh]
            · refine matchIn_eval_noparen c n (inSub cs') 'I' Z hin hn ?_ (by decide)
              rw [hws, ha, hsh]
      · rcases inSub_head_shape n cs' with hsh | ⟨hd_in, Z, hsh⟩
        · rw [hsh]
          exact matchIn_none_of_second c n _ (by simpa using hn)
        · rw [hsh]
          exact matchIn_none_of_second c 'I' _ (by decide)
  · exact matchIn_none_of_not_in c _ (by simpa using hin)

/-- The IN-clause pass is idempotent: its output contains only `IN (?)`
replacement sites where a match can occur, and each rematches to itself. -/
theorem inSub_idem (l : List Char) : inSub (inSub l) = inSub l := by
  match l with
  | [] => rfl
  | c :: cs =>
    cases hm : matchIn (c :: cs) with
    | some rest =>
      rw [inSub_cons_match c cs rest hm]
      have hmr : matchIn (inRepl ++ inSub rest) = some (inSub rest) :=
        matchIn_inRepl (inSub rest)
      have hstep : inSub (inRepl ++ inSub rest) = inRepl ++ inSub (inSub rest) :=
        inSub_cons_match 'I' ('N' :: ' ' :: '(' :: '?' :: ')' :: inSub rest)
          (inSub rest) hmr
      rw [hstep, inSub_idem rest]
    | none =>
      rw [inSub_cons_nomatch c cs hm]
      rw [inSub_cons_nomatch c (inSub cs) (matchIn_none_inSub c cs hm)]
      rw [inSub_idem cs]
termination_by l.length
decreasing_by
  · simp
  · have := matchIn_length _ _ hm
    simp only [List.length_cons] at this ⊢
    omega

/-! ## C5: the integer pass clears every standalone integer -/

theorem hasIntLit_numSub (pw : Bool) (l : List Char) :
    hasIntLit pw (numSub pw l) = false := by
  match l with
  | [] => rfl
  | c :: cs =>
    rw [numSub_cons]
    by_cases hc : (!pw && c.isDigit) = true
    · have hdc : c.isDigit = true := (Bool.and_eq_true_iff.mp hc).2
      rw [if_pos hc]
      by_cases hb : boundaryAfter ((c :: cs).dropWhile Char.isDigit) = true
      · rw [if_pos hb]
        rw [hasIntLit_cons]
        rw [if_neg (by cases pw <;> decide)]
        have : isWordChar '?' = false := by decide
        rw [this]
        exact hasIntLit_numSub false ((c :: cs).dropWhile Char.isDigit)
      · rw [if_neg hb]
        -- the failed run is copied whole; no match can begin inside it and the
        -- character after it is a non-digit word character
        have hrun : (c :: cs).takeWhile Char.isDigit =
            c :: cs.takeWhile Char.isDigit := List.takeWhile_cons_of_pos hdc
        cases hrest : (c :: cs).dropWhile Char.isDigit with
        | nil => rw [hrest] at hb; simp [boundaryAfter] at hb
        | cons r rs =>
          have hrw : isWordChar r = true := by
            rw [hrest] at hb
            simpa [boundaryAfter] using hb
          have hrd : r.isDigit = false :=
            dropWhile_head_false Char.isDigit (c :: cs) r rs hrest
          rw [hrun]
          rw [numSub_cons]
          rw [if_neg (by simp)]
          rw [List.cons_append, hasIntLit_cons]
          rw [if_pos hc]
          have hall : ∀ x ∈ cs.takeWhile Char.isDigit, Char.isDigit x = true := by
            intro x hx
            exact List.mem_takeWhile_imp hx
          have hdrop : (c :: (cs.takeWhile Char.isDigit ++
              r :: numSub (isWordChar r) rs)).dropWhile Char.isDigit =
              r :: numSub (isWordChar r) rs := by
            rw [List.dropWhile_cons_of_pos hdc,
              dropWhile_append_all Char.isDigit _ _ hall,
              List.dropWhile_cons_of_neg (by simp [hrd])]
          rw [hdrop]
          rw [if_neg (by simp [boundaryAfter, hrw])]
          have hfold : r :: numSub (isWordChar r) rs = numSub true (r :: rs) := by
            rw [numSub_cons, if_neg (by simp)]
          rw [hfold]
          have hrec := hasIntLit_numSub true ((c :: cs).dropWhile Char.isDigit)
          rw [hrest] at hrec
          exact hrec
    · rw [if_neg hc]
      rw [hasIntLit_cons, if_neg hc]
      exact hasIntLit_numSub (isWordChar c) cs
termination_by l.length
decreasing_by
  · have hdc : c.isDigit = true := (Bool.and_eq_true_iff.mp hc).2
    rw [List.dropWhile_cons_of_pos hdc]
    have := length_dropWhile_le Char.isDigit cs
    simp only [List.length_cons]
    omega
  · have hdc : c.isDigit = true := (Bool.and_eq_true_iff.mp hc).2
    rw [List.dropWhile_cons_of_pos hdc]
    have := length_dropWhile_le Char.isDigit cs
    simp only [List.length_cons]
    omega
  · simp

/-- Passing a `)` (non-word, non-digit): if the scan finds no standalone
integer in `xs ++ ')' :: rest`, it finds none in `rest` either, scanning
from the boundary state after `)`. -/
theorem hasIntLit_suffix_rparen (xs : List Char) (pw : Bool) (rest : List Char)
    (h : hasIntLit pw (xs ++ ')' :: rest) = false) :
    hasIntLit false rest = false := by
  match xs with
  | [] =>
    rw [List.nil_append, hasIntLit_cons] at h
    rw [if_neg (by cases pw <;> decide)] at h
    have : isWordChar ')' = false := by decide
    rw [this] at h
    exact h
  | x :: xs' =>
    rw [List.cons_append, hasIntLit_cons] at h
    by_cases hg : (!pw && x.isDigit) = true
    · have hxd : x.isDigit = true := (Bool.and_eq_true_iff.mp hg).2
      rw [if_pos hg] at h
      by_cases hb : boundaryAfter ((x :: (xs' ++ ')' :: rest)).dropWhile Char.isDigit) = true
      · rw [if_pos hb] at h
        simp at h
      · rw [if_neg hb] at h
        have hdw : (x :: (xs' ++ ')' :: rest)).dropWhile Char.isDigit =
            xs'.dropWhile Char.isDigit ++ ')' :: rest := by
          rw [List.dropWhile_cons_of_pos hxd,
            dropWhile_append_of_stop Char.isDigit xs' ')' rest (by decide)]
        rw [hdw] at h
        exact hasIntLit_suffix_rparen (xs'.dropWhile Char.isDigit) true rest h
    · rw [if_neg hg] at h
      exact hasIntLit_suffix_rparen xs' (isWordChar x) rest h
termination_by xs.length
decreasing_by
  · have := length_dropWhile_le Char.isDigit xs'
    simp only [List.length_cons]
    omega
  · simp

/-- The IN-clause pass preserves the absence of standalone integers: its
replacement is digit-free, starts with a word character where the original
match started with one, and ends with the same `)`. -/
theorem hasIntLit_inSub (pw : Bool) (l : List Char)
    (h : hasIntLit pw l = false) : hasIntLit pw (inSub l) = false := by
  match l with
  | [] => exact h
  | c :: cs =>
    cases hm : matchIn (c :: cs) with
    | some rest =>
      rw [inSub_cons_match c cs rest hm]
      show hasIntLit pw ('I' :: 'N' :: ' ' :: '(' :: '?' :: ')' :: inSub rest) = false
      rw [hasIntLit_cons, if_neg (by cases pw <;> decide),
        show isWordChar 'I' = true from by decide]
      rw [hasIntLit_cons, if_neg (by decide),
        show isWordChar 'N' = true from by decide]
      rw [hasIntLit_cons, if_neg (by decide),
        show isWordChar ' ' = false from by decide]
      rw [hasIntLit_cons, if_neg (by decide),
        show isWordChar '(' = false from by decide]
      rw [hasIntLit_cons, if_neg (by decide),
        show isWordChar '?' = false from by decide]
      rw [hasIntLit_cons, if_neg (by decide),
        show isWordChar ')' = false from by decide]
      have hrest : hasIntLit false rest = false := by
        rcases matchIn_decomp _ _ hm with ⟨c1, c2, ws, content, heq, -, -, -, -, -⟩
        have hsplit : c :: cs = (c1 :: c2 :: (ws ++ '(' :: content)) ++ ')' :: rest := by
          rw [heq]
          simp
        rw [hsplit] at h
        exact hasIntLit_suffix_rparen _ pw rest h
      exact hasIntLit_inSub false rest hrest
    | none =>
      rw [inSub_cons_nomatch c cs hm]
      rw [hasIntLit_cons] at h ⊢
      by_cases hg : (!pw && c.isDigit) = true
      · have hcd : c.isDigit = true := (Bool.and_eq_true_iff.mp hg).2
        rw [if_pos hg] at h ⊢
        have hdw1 : (c :: inSub cs).dropWhile Char.isDigit =
            inSub (cs.dropWhile Char.isDigit) := by
          rw [List.dropWhile_cons_of_pos hcd]
          exact dropWhile_inSub_comm Char.isDigit (by decide) (by decide) cs
        have hdw2 : (c :: cs).dropWhile Char.isDigit = cs.dropWhile Char.isDigit :=
          List.dropWhile_cons_of_pos hcd
        rw [hdw2] at h
        rw [hdw1, boundaryAfter_inSub]
        by_cases hb : boundaryAfter (cs.dropWhile Char.isDigit) = true
        · rw [if_pos hb] at h
          simp at h
        · rw [if_neg hb] at h ⊢
          exact hasIntLit_inSub true (cs.dropWhile Char.isDigit) h
      · rw [if_neg hg] at h ⊢
        exact hasIntLit_inSub (isWordChar c) cs h
termination_by l.length
decreasing_by
  · have := length_dropWhile_le Char.isDigit cs
    simp only [List.length_cons]
    omega
  · simp
  · have := matchIn_length _ _ hm
    simp only [List.length_cons] at this ⊢
    omega

/-! ## C5: the integer and IN-clause passes introduce no single quote -/

theorem numSub_noQuote (pw : Bool) (l : List Char) (h : ∀ x ∈ l, x ≠ squote) :
    ∀ x ∈ numSub pw l, x ≠ squote := by
  match l with
  | [] => intro x hx; exact absurd hx (List.not_mem_nil x)
  | c :: cs =>
    rw [numSub_cons]
    by_cases hc : (!pw && c.isDigit) = true
    · have hdc : c.isDigit = true := (Bool.and_eq_true_iff.mp hc).2
      rw [if_pos hc]
      have hd : ∀ x ∈ (c :: cs).dropWhile Char.isDigit, x ≠ squote := by
        intro x hx
        exact h x ((List.dropWhile_sublist Char.isDigit).subset hx)
      by_cases hb : boundaryAfter ((c :: cs).dropWhile Char.isDigit) = true
      · rw [if_pos hb]
        intro x hx
        rcases List.mem_cons.mp hx with hx | hx
        · subst hx; decide
        · exact numSub_noQuote false _ hd x hx
      · rw [if_neg hb]
        intro x hx
        rcases List.mem_append.mp hx with hx | hx
        · exact h x ((List.takeWhile_sublist Char.isDigit).subset hx)
        · exact numSub_noQuote true _ hd x hx
    · rw [if_neg hc]
      intro x hx
      rcases List.mem_cons.mp hx with hx | hx
      · subst hx; exact h x (List.mem_cons_self x cs)
      · exact numSub_noQuote (isWordChar c) cs
          (fun y hy => h y (List.mem_cons_of_mem c hy)) x hx
termination_by l.length
decreasing_by
  · rw [List.dropWhile_cons_of_pos hdc]
    have := length_dropWhile_le Char.isDigit cs
    simp only [List.length_cons]
    omega
  · rw [List.dropWhile_cons_of_pos hdc]
    have := length_dropWhile_le Char.isDigit cs
    simp only [List.length_cons]
    omega
  · simp

theorem inSub_noQuote (l : List Char) (h : ∀ x ∈ l, x ≠ squote) :
    ∀ x ∈ inSub l, x ≠ squote := by
  match l with
  | [] => intro x hx; exact absurd hx (List.not_mem_nil x)
  | c :: cs =>
    cases hm : matchIn (c :: cs) with
    | some rest =>
      rw [inSub_cons_match c cs rest hm]
      have hr : ∀ x ∈ rest, x ≠ squote := by
        rcases matchIn_decomp _ _ hm with ⟨c1, c2, ws, content, heq, -, -, -, -, -⟩
        intro x hx
        refine h x ?_
        rw [heq]
        simp [hx]
      intro x hx
      rcases List.mem_append.mp hx with hx | hx
      · simp only [inRepl, List.mem_cons, List.not_mem_nil, or_false] at hx
        rcases hx with rfl | rfl | rfl | rfl | rfl | rfl <;> decide
      · exact inSub_noQuote rest hr x hx
    | none =>
      rw [inSub_cons_nomatch c cs hm]
      intro x hx
      rcases List.mem_cons.mp hx with hx | hx
      · subst hx; exact h x (List.mem_cons_self x cs)
      · exact inSub_noQuote cs (fun y hy => h y (List.mem_cons_of_mem c hy)) x hx
termination_by l.length
decreasing_by
  · simp
  · have := matchIn_length _ _ hm
    simp only [List.length_cons] at this ⊢
    omega

/-- C5 counterexample: `normalize` is not idempotent on every string.  In this
string the two UUID-shaped bodies share their surrounding quotes, so the
(leftmost, non-overlapping) UUID pass rewrites only the first body on the
first application and rewrites the second body only on the second
application. -/
theorem c5_counterexample :
    normalize_query (normalize_query
      "'a2345678-a234-a234-a234-a23456789012'a2345678-a234-a234-a234-a23456789012'x") ≠
    normalize_query
      "'a2345678-a234-a234-a234-a23456789012'a2345678-a234-a234-a234-a23456789012'x" := by
  decide

/-- C5 (amended): `normalize` is a deterministic total function, and on every
query string containing no single-quote character it is idempotent:
`normalize(normalize(s)) = normalize(s)`.  (On quote-free input the UUID and
string passes are the identity, the integer pass leaves no standalone integer
behind and introduces no quote, and the IN-clause pass is idempotent and
introduces no quote and no standalone integer.) -/
theorem c5_idempotent_quote_free (s : String) (hq : noQuote s = true) :
    normalize_query (normalize_query s) = normalize_query s := by
  have hq' : ∀ c ∈ s.data, c ≠ squote := by
    intro c hc
    have := List.all_eq_true.mp hq c hc
    simpa using this
  have hmid : normalize_query s = ⟨inSub (numSub false s.data)⟩ := by
    show (⟨normalizeChars s.data⟩ : String) = _
    unfold normalizeChars
    rw [uuidSub_id_of_noQuote _ hq', strSub_id_of_noQuote _ hq']
  have hts : ∀ x ∈ inSub (numSub false s.data), x ≠ squote :=
    inSub_noQuote _ (numSub_noQuote false _ hq')
  have hint : hasIntLit false (inSub (numSub false s.data)) = false :=
    hasIntLit_inSub false _ (hasIntLit_numSub false s.data)
  rw [hmid]
  show (⟨normalizeChars (inSub (numSub false s.data))⟩ : String) = _
  unfold normalizeChars
  rw [uuidSub_id_of_noQuote _ hts, strSub_id_of_noQuote _ hts,
    numSub_id_of_no_int false _ hint, inSub_idem]

/-- Witness for C5 at a concrete quote-free query with an IN clause. -/
theorem c5_idempotent_quote_free_witness :
    noQuote "SELECT id FROM users WHERE id IN (1, 2, 3)" = true ∧
    normalize_query (normalize_query "SELECT id FROM users WHERE id IN (1, 2, 3)") =
      normalize_query "SELECT id FROM users WHERE id IN (1, 2, 3)" :=
  ⟨by decide, c5_idempotent_quote_free "SELECT id FROM users WHERE id IN (1, 2, 3)" (by decide)⟩
